import Mathlib

/-!
Shallow embedding of the reactivity core of the repository (a Vue-2 style
reactive runtime): the update scheduler (src/core/observer/scheduler.js),
the observer / reactive wrapper (src/core/observer/index.js), the array
method interceptors (src/core/observer/array.js), the watcher
(src/core/observer/watcher.js), the global dependency target stack
(src/core/observer/dep.js) and the computed-property getter
(src/core/instance/state.js), together with proofs about the claims of
the specification.

Modeling conventions:
* JavaScript values are `JSVal`; machine numbers are `Int` with `NaN` as a
  separate constructor since only identity and NaN-ness matter to the code
  under verification. `===` is `jsEqB`.
* Objects live in an explicit heap (`Heap`); a JS object reference is
  `JSVal.ref r` indexing `Heap.objs`.
* The dev build (`process.env.NODE_ENV !== 'production'`) with
  `config.async = true` is modeled, since the claims concern the warning /
  circular-update code paths that exist only there.
* `dep.notify()` on a dependency is recorded in a ghost `notifyLog`
  (heap model) or fans out to `queueWatcher` (scheduler model);
  `warn(...)` increments a ghost `warnCount`; `nextTick(flushSchedulerQueue)`
  increments a ghost `scheduled` counter.
* Unbounded JS loops/recursion (the scheduler flush loop, recursive
  observation) take an explicit fuel argument; fuel exhaustion is reported
  distinctly and never identified with any real behavior of the code.
-/

namespace VueCore

open List

/-! ## JavaScript value model -/

/-- A JavaScript runtime value. `num` covers the ordinary (integral)
numbers the code compares by identity; `nan` is the NaN number, kept
separate because the setter's self-comparison test distinguishes it. -/
inductive JSVal where
  | undef
  | nullv
  | boolean (b : Bool)
  | num (n : Int)
  | nan
  | str (s : String)
  | ref (r : Nat)
deriving DecidableEq, Repr

/-- JavaScript strict equality `===` on our value model. `NaN === NaN` is
false; references compare by identity. -/
def jsEqB : JSVal → JSVal → Bool
  | JSVal.undef, JSVal.undef => true
  | JSVal.nullv, JSVal.nullv => true
  | JSVal.boolean a, JSVal.boolean b => a == b
  | JSVal.num a, JSVal.num b => a == b
  | JSVal.str a, JSVal.str b => a == b
  | JSVal.ref a, JSVal.ref b => a == b
  | _, _ => false

/-- Model of `isUndef` (shared/util.js): `v === undefined || v === null`. -/
def isUndefV (v : JSVal) : Bool :=
  v == JSVal.undef || v == JSVal.nullv

/-- Model of `isPrimitive` (shared/util.js): string, number (including NaN),
boolean (or symbol, not modeled). -/
def isPrimitiveV : JSVal → Bool
  | JSVal.str _ => true
  | JSVal.num _ => true
  | JSVal.nan => true
  | JSVal.boolean _ => true
  | _ => false

/-! ## Scheduler model (src/core/observer/scheduler.js)

Watchers are represented by their numeric `id` (`watcher.id`, assigned from
a monotonically increasing uid at construction). The module-level mutable
state of scheduler.js is `SchedState`. -/

/-- Model of `MAX_UPDATE_COUNT` (scheduler.js line 15). -/
def MAX_UPDATE_COUNT : Nat := 100

/-- The module-level scheduler state: `queue`, `has`, `circular`,
`waiting`, `flushing`, `index`. `scheduled` is a ghost counter of
`nextTick(flushSchedulerQueue)` registrations. (`activatedChildren` holds
component instances for lifecycle hooks and is outside the claims.) -/
structure SchedState where
  queue : List Nat
  has : Nat → Bool
  circular : Nat → Nat
  waiting : Bool
  flushing : Bool
  index : Nat
  scheduled : Nat

/-- Functional update of the `has` map (`has[id] = true` / `has[id] = null`;
`has[id] == null` is modeled as `has id = false`). -/
def setHas (wid : Nat) (b : Bool) (s : SchedState) : SchedState :=
  { s with has := fun i => if i = wid then b else s.has i }

/-- Functional update of the dev-build `circular` counter map. -/
def setCircular (wid c : Nat) (s : SchedState) : SchedState :=
  { s with circular := fun i => if i = wid then c else s.circular i }

/-- Model of `queue.splice(i + 1, 0, watcher)`: insert at position `n`, appending
when `n` exceeds the length (as JS splice does). -/
def listInsert (n : Nat) (a : Nat) (l : List Nat) : List Nat :=
  l.take n ++ a :: l.drop n

/-- The scan `let i = queue.length - 1; while (i > index && queue[i].id >
watcher.id) i--` (scheduler.js 183-187), returning the final `i`. The last
argument is the current value of `i`. -/
def spliceSearch (queue : List Nat) (index wid : Nat) : Nat → Nat
  | 0 => 0
  | i + 1 =>
    if index < i + 1 && wid < queue.getD (i + 1) 0 then
      spliceSearch queue index wid i
    else
      i + 1

/-- The insertion position `i + 1` used by `queue.splice(i + 1, 0, watcher)`
(scheduler.js 189). For an empty queue JS starts at `i = -1` and inserts
at 0. -/
def spliceInsertPos (queue : List Nat) (index wid : Nat) : Nat :=
  if queue.isEmpty then 0 else spliceSearch queue index wid (queue.length - 1) + 1

/-- Model of `queueWatcher` (scheduler.js 173-205), dev build with
`config.async = true`: skip if already pending; push when not flushing,
otherwise splice in id order after the cursor; the first enqueue while
`waiting` is false registers the deferred flush (ghost `scheduled`). -/
def queueWatcher (wid : Nat) (s : SchedState) : SchedState :=
  if s.has wid then s
  else
    let s1 := setHas wid true s
    let s2 :=
      if !s1.flushing then { s1 with queue := s1.queue ++ [wid] }
      else { s1 with queue := listInsert (spliceInsertPos s1.queue s1.index wid) wid s1.queue }
    if !s2.waiting then { s2 with waiting := true, scheduled := s2.scheduled + 1 }
    else s2

/-- What one `watcher.run()` call does, as far as the scheduler can see:
it either returns, having caused `queueWatcher` on a list of watcher ids
(through the reactive setters its callback triggered), or it throws after
having caused those enqueues. -/
inductive RunOutcome where
  | ok (enq : List Nat)
  | throws (enq : List Nat)
deriving DecidableEq, Repr

/-- How a flush ended: the loop epilogue ran (`completed`), an exception
escaped a `watcher.run()` (`errored`), or the model ran out of fuel
(`fuelOut`, no JS counterpart). -/
inductive FlushResult where
  | completed
  | errored
  | fuelOut
deriving DecidableEq, Repr

/-- Result of (a prefix of) a flush: the ids in run order, the scheduler
state left behind, how it ended, and whether the infinite-update warning
fired. -/
structure FlushOut where
  trace : List Nat
  state : SchedState
  result : FlushResult
  warned : Bool

/-- Model of `resetSchedulerState` (scheduler.js 30-37): queue emptied, `has` and
`circular` cleared, cursor zeroed, `waiting = flushing = false`. -/
def resetSchedulerState (s : SchedState) : SchedState :=
  { queue := [], has := fun _ => false, circular := fun _ => 0,
    waiting := false, flushing := false, index := 0, scheduled := s.scheduled }

/-- The sequence of `queueWatcher` calls a `watcher.run()` performed. -/
def enqAll (enq : List Nat) (s : SchedState) : SchedState :=
  enq.foldl (fun st w => queueWatcher w st) s

/-- Model of `index++` of the flush loop. -/
def bumpIndex (s : SchedState) : SchedState :=
  { s with index := s.index + 1 }

/-- The `for` loop of `flushSchedulerQueue` (scheduler.js 86-113) together
with its epilogue `resetSchedulerState()` (line 122). `rE step wid` is
watcher `wid`'s behavior when run as the `step`-th watcher of this flush.
Each iteration: read `queue[index]`, set `has[id] = null`, run the watcher
(its enqueues feed back through `queueWatcher` with `flushing` true), then
the dev-build circular-update check: if the watcher got itself re-enqueued
and its per-flush counter exceeds `MAX_UPDATE_COUNT`, warn and `break`.
An exception from `run()` propagates out of the loop, skipping the
epilogue. (`watcher.before` hooks and the updated/activated hook passes
touch component state outside this model.) -/
def flushLoop (rE : Nat → Nat → RunOutcome) : Nat → SchedState → List Nat → FlushOut
  | 0, s, tr => ⟨tr, s, FlushResult.fuelOut, false⟩
  | fuel + 1, s, tr =>
    match s.queue[s.index]? with
    | none => ⟨tr, resetSchedulerState s, FlushResult.completed, false⟩
    | some wid =>
      let s1 := setHas wid false s
      match rE tr.length wid with
      | RunOutcome.throws enq => ⟨tr ++ [wid], enqAll enq s1, FlushResult.errored, false⟩
      | RunOutcome.ok enq =>
        let s2 := enqAll enq s1
        if s2.has wid then
          let c := s2.circular wid + 1
          let s3 := setCircular wid c s2
          if MAX_UPDATE_COUNT < c then
            ⟨tr ++ [wid], resetSchedulerState s3, FlushResult.completed, true⟩
          else
            flushLoop rE fuel (bumpIndex s3) (tr ++ [wid])
        else
          flushLoop rE fuel (bumpIndex s2) (tr ++ [wid])

/-- Model of `flushSchedulerQueue` (scheduler.js 73-133): set `flushing`, sort the
queue by ascending watcher id (`queue.sort((a, b) => a.id - b.id)` — a
stable sort by the numeric comparator; insertion sort is stable and
computes the same permutation), then run the loop from `index = 0`. -/
def flushSchedulerQueue (rE : Nat → Nat → RunOutcome) (fuel : Nat) (s : SchedState) : FlushOut :=
  let s1 := { s with flushing := true }
  let s2 := { s1 with queue := s1.queue.insertionSort (fun a b => a ≤ b), index := 0 }
  flushLoop rE fuel s2 []

/-! ## Dependency notification into the scheduler (dep.js / watcher.js)

`dep.notify()` calls `subs[i].update()` on each subscriber; for a watcher
with `lazy = false` and `sync = false` (render watchers and ordinary user
watchers) `update()` is `queueWatcher(this)` (watcher.js 205-218). -/

/-- Model of `dep.notify()` fan-out to non-lazy, non-sync subscribers
(`config.async` is true, so `notify` does not re-sort `subs`). -/
def depNotify (subs : List Nat) (s : SchedState) : SchedState :=
  subs.foldl (fun st w => queueWatcher w st) s

/-- A reactive property cell holding its current value, its Dependency's
subscriber list (ids of non-lazy non-sync watchers) and the scheduler. -/
structure CellSched where
  val : JSVal
  subs : List Nat
  sched : SchedState

/-- The write path of the accessor `reactiveSetter` installed by
`defineReactive` (observer/index.js 217-242) for this cell, composed with
the `dep.notify()` fan-out: NaN-aware identity guard, commit, notify.
(Lazy observation of the new value is covered by the heap-level model
below; it does not touch the scheduler.) -/
def cellSet (v : JSVal) (c : CellSched) : CellSched :=
  if jsEqB v c.val || (!jsEqB v v && !jsEqB c.val c.val) then c
  else { c with val := v, sched := depNotify c.subs c.sched }

/-- True when the setter guard lets an assignment of `newV` over `oldV`
through (the values differ under identity/NaN-aware equality). -/
def setterChanges (oldV newV : JSVal) : Bool :=
  !(jsEqB newV oldV || (!jsEqB newV newV && !jsEqB oldV oldV))

/-- Each successive value differs (under the setter guard) from the value
stored just before it: "mutating P to different values". -/
def chainChanges : JSVal → List JSVal → Bool
  | _, [] => true
  | cur, v :: rest => setterChanges cur v && chainChanges v rest

/-! ## The global evaluation target stack (dep.js 57-72, watcher.js 123-151) -/

/-- Model of `Dep.target` and `targetStack`. Stack entries are `Option Nat` because
`pushTarget()` may push `undefined`; `target = none` models both `null`
and `undefined` (the code only tests truthiness). -/
structure DepGlobals where
  targetStack : List (Option Nat)
  target : Option Nat

/-- Model of `pushTarget` (dep.js 62-66). -/
def pushTarget (t : Option Nat) (g : DepGlobals) : DepGlobals :=
  { targetStack := g.targetStack ++ [t], target := t }

/-- Model of `popTarget` (dep.js 68-71): pop, then
`Dep.target = targetStack[targetStack.length - 1]`. -/
def popTarget (g : DepGlobals) : DepGlobals :=
  let s := g.targetStack.dropLast
  { targetStack := s, target := (s.getLast?).getD none }

/-- What the evaluation of `this.getter.call(vm, vm)` does: produce a value
or throw. -/
inductive GetOutcome where
  | value (v : JSVal)
  | throws

/-- Model of `Watcher.get` (watcher.js 123-151) as it acts on the target stack:
`pushTarget(this)`; run the getter inside `try`; in `catch`, a user
watcher routes the error to `handleError` and continues (leaving `value`
undefined) while any other watcher rethrows; the `finally` block runs
`popTarget()` in every case (`traverse` and `cleanupDeps` also run there
but do not touch the target stack). -/
def watcherGet (self : Nat) (user : Bool) (outcome : GetOutcome) (g : DepGlobals) :
    DepGlobals × Except Unit JSVal :=
  let g1 := pushTarget (some self) g
  match outcome with
  | GetOutcome.value v => (popTarget g1, Except.ok v)
  | GetOutcome.throws =>
    if user then (popTarget g1, Except.ok JSVal.undef)
    else (popTarget g1, Except.error ())

/-! ## Computed (lazy) watcher caching (instance/state.js createComputedGetter,
watcher.js evaluate/update) -/

/-- The cache-relevant state of a lazy (computed) watcher: its cached
`value`, the `dirty` flag, and a ghost count of how many times the user's
getter function has been evaluated. -/
structure ComputedW where
  value : JSVal
  dirty : Bool
  evalCount : Nat
deriving DecidableEq, Repr

/-- Model of `Watcher.get` for a computed watcher, reduced to its evaluation effect:
run the user getter (counted) and return its value; `getterVal` is the
value the getter computes. (The target-stack discipline of `get` is the
`watcherGet` model above.) -/
def cwGet (getterVal : JSVal) (w : ComputedW) : ComputedW × JSVal :=
  ({ w with evalCount := w.evalCount + 1 }, getterVal)

/-- Model of `Watcher.evaluate` (watcher.js 257-261): `this.value = this.get();
this.dirty = false`. -/
def cwEvaluate (getterVal : JSVal) (w : ComputedW) : ComputedW :=
  let p := cwGet getterVal w
  { p.1 with value := p.2, dirty := false }

/-- The `lazy` branch of `Watcher.update` (watcher.js 205-218): a
dependency mutation just marks the computed watcher dirty. -/
def cwUpdate (w : ComputedW) : ComputedW :=
  { w with dirty := true }

/-- The `computedGetter` returned by `createComputedGetter` for an existing
computed watcher: evaluate when dirty, register the outer `Dep.target`
through `watcher.depend()` (a dependency-set effect only), then return the
cached `watcher.value`. -/
def computedGetterRead (getterVal : JSVal) (depTargetPresent : Bool) (w : ComputedW) :
    ComputedW × JSVal :=
  let w1 := if w.dirty then cwEvaluate getterVal w else w
  -- if (Dep.target) watcher.depend(): touches dependency subscriber sets only
  (w1, w1.value)

/-! ## The observer heap model (src/core/observer/index.js, array.js)

Objects live in a heap. A map-like object's own enumerable properties are
`fields`; an array's elements are `elems`. A property installed by
`defineReactive` records the id of its closure `Dep` (`dep`) and its
closure `childOb` observer. `Observer` instances live in a side table
`obs`; `value.__ob__` is the `ob` field of the object. -/

/-- Classification of a heap object as the observer code tests it:
`isPlainObject`, `Array.isArray`, `instanceof VNode`, or anything else. -/
inductive ObjKind where
  | plainObj
  | arrayObj
  | vnodeObj
  | otherObj
deriving DecidableEq, Repr

/-- One own property: its value, and — when `defineReactive` has installed
the accessor pair on it — that accessor's closure `Dep` id and the closure
`childOb` observer id. -/
structure FieldRec where
  value : JSVal
  dep : Option Nat
  childOb : Option Nat
deriving DecidableEq, Repr

/-- A heap object. `ob` is the (non-enumerable) `__ob__` own property. -/
structure JSObj where
  kind : ObjKind
  fields : List (String × FieldRec)
  elems : List JSVal
  extensible : Bool
  isVue : Bool
  ob : Option Nat
deriving DecidableEq, Repr

/-- An `Observer` instance: the observed value, the Observer's own `dep`
(its uid), and `vmCount`. -/
structure ObserverRec where
  valueRef : Nat
  depId : Nat
  vmCount : Nat
deriving DecidableEq, Repr

/-- The heap: objects (a reference is an index into `objs`), the Observer
table, the `Dep` uid counter, and ghosts: the log of `dep.notify()` calls
(by dep uid), the `warn` counter, and the module-level `shouldObserve`
toggle. -/
structure Heap where
  objs : List JSObj
  obs : List ObserverRec
  nextDepId : Nat
  notifyLog : List Nat
  warnCount : Nat
  shouldObserve : Bool
deriving DecidableEq, Repr

def Heap.getObj (h : Heap) (r : Nat) : Option JSObj :=
  h.objs[r]?

def Heap.setObj (h : Heap) (r : Nat) (o : JSObj) : Heap :=
  { h with objs := h.objs.set r o }

/-- Ghost record of `dep.notify()` for dep uid `depId`. -/
def Heap.notify (h : Heap) (depId : Nat) : Heap :=
  { h with notifyLog := h.notifyLog ++ [depId] }

/-- Ghost record of a dev-build `warn(...)`. -/
def Heap.warn (h : Heap) : Heap :=
  { h with warnCount := h.warnCount + 1 }

/-- Model of `ob.vmCount++`. -/
def bumpVm (obId : Nat) (obs : List ObserverRec) : List ObserverRec :=
  match obs[obId]? with
  | some orec => obs.set obId { orec with vmCount := orec.vmCount + 1 }
  | none => obs

/-- Own-field lookup (JS own-property access on a map-like object). -/
def fieldsGet (key : String) : List (String × FieldRec) → Option FieldRec
  | [] => none
  | (k, f) :: rest => if k = key then some f else fieldsGet key rest

/-- Replace-or-append a field, as `Object.defineProperty` / plain
assignment do. -/
def fieldsSet (key : String) (fr : FieldRec) : List (String × FieldRec) → List (String × FieldRec)
  | [] => [(key, fr)]
  | (k, f) :: rest => if k = key then (k, fr) :: rest else (k, f) :: fieldsSet key fr rest

/-- Model of `delete target[key]`. -/
def fieldsRemove (key : String) : List (String × FieldRec) → List (String × FieldRec)
  | [] => []
  | (k, f) :: rest => if k = key then rest else (k, f) :: fieldsRemove key rest

/-- One `defineReactive(obj, keys[i])` call of `Observer.walk`
(observer/index.js 77-82, 168-243) as it acts on the heap: allocate the
key's closure `Dep`, read the current value (`val = obj[key]`, the
`arguments.length === 2` path), recursively observe it
(`childOb = !shallow && observe(val)`, performed by `recObs`), and
install the accessor pair, recorded on the field. -/
def walkStep (recObs : Heap → JSVal → Heap × Option Nat) (r : Nat)
    (h : Heap) (key : String) : Heap :=
  let depId := h.nextDepId
  let h1 := { h with nextDepId := h.nextDepId + 1 }
  match h1.getObj r with
  | none => h1
  | some o =>
    match fieldsGet key o.fields with
    | none => h1
    | some fr =>
      let p := recObs h1 fr.value
      match p.1.getObj r with
      | none => p.1
      | some o2 =>
        match fieldsGet key o2.fields with
        | none => p.1
        | some fr2 =>
          p.1.setObj r
            { o2 with fields :=
                fieldsSet key { fr2 with dep := some depId, childOb := p.2 } o2.fields }

/-- The allocation the `Observer` constructor performs: a fresh Observer
record for the value at `r` with its own `dep = new Dep()` (consuming a
Dep uid). -/
def observerAlloc (h : Heap) (r : Nat) : Heap :=
  { h with obs := h.obs ++ [(⟨r, h.nextDepId, 0⟩ : ObserverRec)],
           nextDepId := h.nextDepId + 1 }

/-- One step of `observe` (observer/index.js 130-160) together with the
`Observer` constructor (lines 44-92). `recObs` performs the recursive
`observe` calls the constructor makes (`walk` for map-like values,
`observeArray` for arrays); `canConstruct` is false only at fuel
exhaustion of the model. The JS recursion terminates because `__ob__` is
installed (`def(value, '__ob__', this)`) before the constructor recurses;
the model mirrors that order. An array additionally gets its prototype
swapped to the patched methods (`protoAugment`), which the model tracks
implicitly: an array dispatches the interceptors exactly when its `ob`
field is set. -/
def observeStep (recObs : Heap → JSVal → Heap × Option Nat) (canConstruct : Bool)
    (h : Heap) (v : JSVal) (asRootData : Bool) : Heap × Option Nat :=
  match v with
  | JSVal.ref r =>
    match h.getObj r with
    | none => (h, none)
    | some o =>
      if o.kind == ObjKind.vnodeObj then (h, none)
      else
        match o.ob with
        | some obId =>
          -- hasOwn(value, '__ob__') && value.__ob__ instanceof Observer
          if asRootData then ({ h with obs := bumpVm obId h.obs }, some obId)
          else (h, some obId)
        | none =>
          if h.shouldObserve && (o.kind == ObjKind.arrayObj || o.kind == ObjKind.plainObj)
              && o.extensible && !o.isVue && canConstruct then
            let obId := h.obs.length
            let h1 := observerAlloc h r
            let h2 := h1.setObj r { o with ob := some obId }
            let h3 :=
              if o.kind == ObjKind.arrayObj then
                o.elems.foldl (fun hh e => (recObs hh e).1) h2
              else
                (o.fields.map Prod.fst).foldl (walkStep recObs r) h2
            if asRootData then ({ h3 with obs := bumpVm obId h3.obs }, some obId)
            else (h3, some obId)
          else (h, none)
  | _ => (h, none)

/-- Model of `observe(value, asRootData)` with recursion fuel. (`isServerRendering()`
is false in this model.) -/
def observe : Nat → Heap → JSVal → Bool → Heap × Option Nat
  | 0 => observeStep (fun h _ => (h, none)) false
  | fuel + 1 => observeStep (fun h v => observe fuel h v false) true

/-- Model of `Observer.observeArray` (observer/index.js 87-91): observe each item. -/
def observeArrayList (fuel : Nat) (h : Heap) (items : List JSVal) : Heap :=
  items.foldl (fun hh v => (observe fuel hh v false).1) h

/-! ## The intercepted array mutators (src/core/observer/array.js) -/

/-- One invocation of one of the seven patched methods, with its
arguments. -/
inductive ArrOp where
  | push (args : List JSVal)
  | pop
  | shift
  | unshift (args : List JSVal)
  | splice (start : Int) (deleteCount : Int) (items : List JSVal)
  | sortArr
  | reverseArr
deriving DecidableEq, Repr

/-- Return value of a native array method. `removed` is the fresh array
`splice` returns; `self` stands for the `this` reference `sort`/`reverse`
return. -/
inductive OpResult where
  | val (v : JSVal)
  | removed (l : List JSVal)
  | self
deriving DecidableEq, Repr

/-- Model of `String(x)` as the default `sort` comparator converts elements.
Object references stringify via the default `Object.prototype.toString`
(array elements would join recursively; their relative order is not
load-bearing for any claim). -/
def jsDefaultToString : JSVal → String
  | JSVal.undef => "undefined"
  | JSVal.nullv => "null"
  | JSVal.boolean b => if b then "true" else "false"
  | JSVal.num n => toString n
  | JSVal.nan => "NaN"
  | JSVal.str s => s
  | JSVal.ref _ => "[object Object]"

/-- JS `splice` start/deleteCount clamping. -/
def spliceBounds (len : Nat) (start deleteCount : Int) : Nat × Nat :=
  let s : Nat := if start < 0 then (max (Int.ofNat len + start) 0).toNat else min start.toNat len
  let d : Nat := min (max deleteCount 0).toNat (len - s)
  (s, d)

/-- The underlying native mutation (`const original = arrayProto[method]`;
`const result = original.apply(this, args)`): the new element list and the
returned result. Default `sort` compares string conversions, stably, with
`undefined` elements moved to the end. -/
def nativeArrayOp (op : ArrOp) (l : List JSVal) : List JSVal × OpResult :=
  match op with
  | ArrOp.push args => (l ++ args, OpResult.val (JSVal.num (Int.ofNat (l.length + args.length))))
  | ArrOp.pop => (l.dropLast, OpResult.val ((l.getLast?).getD JSVal.undef))
  | ArrOp.shift => (l.tail, OpResult.val ((l.head?).getD JSVal.undef))
  | ArrOp.unshift args => (args ++ l, OpResult.val (JSVal.num (Int.ofNat (args.length + l.length))))
  | ArrOp.splice st dc items =>
    let b := spliceBounds l.length st dc
    (l.take b.1 ++ items ++ l.drop (b.1 + b.2), OpResult.removed ((l.drop b.1).take b.2))
  | ArrOp.sortArr =>
    let nonU := l.filter (fun x => !(x == JSVal.undef))
    let us := l.filter (fun x => x == JSVal.undef)
    (nonU.insertionSort (fun a b => jsDefaultToString a ≤ jsDefaultToString b) ++ us,
      OpResult.self)
  | ArrOp.reverseArr => (l.reverse, OpResult.self)

/-- The `switch (method)` of the interceptor: the `inserted` list —
`args` for push/unshift, `args.slice(2)` for splice, `undefined`
otherwise. -/
def insertedOf : ArrOp → Option (List JSVal)
  | ArrOp.push args => some args
  | ArrOp.unshift args => some args
  | ArrOp.splice _ _ items => some items
  | _ => none

/-- The `mutator` wrapper installed over the seven methods (array.js
27-55): run the original method, read `this.__ob__`, observe any newly
inserted elements (`ob.observeArray(inserted)`), then `ob.dep.notify()`
once, and return the original result. On an array whose `__ob__` is not an
Observer the JS code would fail at `ob.observeArray` / `ob.dep.notify`;
that (and a dangling reference) is `none`. -/
def mutator (fuel : Nat) (op : ArrOp) (h : Heap) (r : Nat) : Option (Heap × OpResult) :=
  match h.getObj r with
  | none => none
  | some o =>
    let p := nativeArrayOp op o.elems
    let h1 := h.setObj r { o with elems := p.1 }
    match o.ob with
    | none => none
    | some obId =>
      let h2 :=
        match insertedOf op with
        | some ins => observeArrayList fuel h1 ins
        | none => h1
      match h2.obs[obId]? with
      | none => none
      | some orec => some (h2.notify orec.depId, p.2)

/-! ## defineReactive and the reactive setter, heap level -/

/-- Model of `defineReactive(obj, key, val)` with an explicit `val` (the
`arguments.length === 3` form used by `set`): allocate the key's closure
`Dep`, observe `val` (`childOb`), and install the accessor pair recorded
on the field. (The `configurable === false` early return and pre-defined
getter/setter handling do not arise for the plain data objects modeled:
their fields carry no foreign accessors.) -/
def defineReactiveOn (fuel : Nat) (h : Heap) (r : Nat) (key : String) (val : JSVal) : Heap :=
  let depId := h.nextDepId
  let h1 := { h with nextDepId := h.nextDepId + 1 }
  let p := observe fuel h1 val false
  match p.1.getObj r with
  | some o => p.1.setObj r { o with fields := fieldsSet key ⟨val, some depId, p.2⟩ o.fields }
  | none => p.1

/-- Store the setter closure's updated `childOb` back on the field. -/
def setChildOb (h : Heap) (r : Nat) (key : String) (co : Option Nat) : Heap :=
  match h.getObj r with
  | some o =>
    match fieldsGet key o.fields with
    | some fr => h.setObj r { o with fields := fieldsSet key { fr with childOb := co } o.fields }
    | none => h
  | none => h

/-- The accessor `reactiveSetter` installed by `defineReactive`
(observer/index.js 217-242) on a data property (no pre-existing
getter/setter, `shallow` false, no `customSetter` — the configuration
`Observer.walk` uses): read the old value, return without any effect when
the new value is identical or both are NaN; otherwise commit `val =
newVal`, re-observe (`childOb = !shallow && observe(newVal)`), and
`dep.notify()`. -/
def reactiveSetter (fuel : Nat) (h : Heap) (r : Nat) (key : String) (newVal : JSVal) : Heap :=
  match h.getObj r with
  | none => h
  | some o =>
    match fieldsGet key o.fields with
    | none => h
    | some fr =>
      if jsEqB newVal fr.value || (!jsEqB newVal newVal && !jsEqB fr.value fr.value) then h
      else
        let h1 := h.setObj r { o with fields := fieldsSet key { fr with value := newVal } o.fields }
        let p := observe fuel h1 newVal false
        let h2 := setChildOb p.1 r key p.2
        match fr.dep with
        | some depId => h2.notify depId
        | none => h2

/-! ## `set` / `del` (observer/index.js 249-325) -/

/-- Exceptional or normal completion of a JS operation, keeping the heap
at the throw point. -/
inductive JsRes (α : Type) where
  | ok (h : Heap) (a : α)
  | thrown (h : Heap)
deriving DecidableEq, Repr

/-- Model of `Array.isArray(target)`. -/
def isArrayVal (h : Heap) (v : JSVal) : Bool :=
  match v with
  | JSVal.ref r =>
    match h.getObj r with
    | some o => o.kind == ObjKind.arrayObj
    | none => false
  | _ => false

/-- Model of `isValidArrayIndex(val)` (shared/util.js): a non-negative finite
integer, possibly given as its decimal string. -/
def isValidArrayIndexV : JSVal → Bool
  | JSVal.num n => decide (0 ≤ n)
  | JSVal.str s => (s.toNat?).isSome
  | _ => false

/-- The array index a valid key denotes. -/
def keyToNat : JSVal → Nat
  | JSVal.num n => n.toNat
  | JSVal.str s => (s.toNat?).getD 0
  | _ => 0

/-- Property-key string coercion for non-index keys. -/
def jsKeyString : JSVal → String
  | JSVal.str s => s
  | v => jsDefaultToString v

/-- The own enumerable keys of `Object.prototype` relevant to the
`!(key in Object.prototype)` test. -/
def objectProtoKeys : List String :=
  ["constructor", "hasOwnProperty", "isPrototypeOf", "propertyIsEnumerable",
   "toLocaleString", "toString", "valueOf"]

/-- The JS `in` operator on the target: throws a TypeError when the right
operand is not an object (`undefined`, `null` or a primitive); on an
object it tests own properties (fields, `__ob__`, array indices and
`length`) and the `Object.prototype` members the caller re-checks. -/
def jsInOp (h : Heap) (key : String) (v : JSVal) : JsRes Bool :=
  match v with
  | JSVal.ref r =>
    match h.getObj r with
    | none => JsRes.thrown h
    | some o =>
      JsRes.ok h ((fieldsGet key o.fields).isSome
        || (o.ob.isSome && key == "__ob__")
        || (o.kind == ObjKind.arrayObj && (key.toNat?).isSome
              && decide ((key.toNat?).getD 0 < o.elems.length))
        || (o.kind == ObjKind.arrayObj && key == "length")
        || objectProtoKeys.contains key)
  | _ => JsRes.thrown h

/-- Plain JS assignment `target[key] = val` on an object: runs the
reactive setter when `defineReactive` installed one on this key,
otherwise writes the property directly. -/
def assignField (fuel : Nat) (h : Heap) (r : Nat) (key : String) (val : JSVal) : Heap :=
  match h.getObj r with
  | some o =>
    match fieldsGet key o.fields with
    | some fr =>
      match fr.dep with
      | some _ => reactiveSetter fuel h r key val
      | none => h.setObj r { o with fields := fieldsSet key { fr with value := val } o.fields }
    | none => h.setObj r { o with fields := fieldsSet key ⟨val, none, none⟩ o.fields }
  | none => h

/-- Model of `ob && ob.vmCount` for a target object. -/
def obVmPositive (h : Heap) (o : JSObj) : Bool :=
  match o.ob with
  | some obId =>
    match h.obs[obId]? with
    | some orec => decide (0 < orec.vmCount)
    | none => false
  | none => false

/-- Model of `target.splice(start, deleteCount, ...items)`: dispatches the
intercepted `splice` when the array is observed (its prototype was
swapped by `protoAugment`), the native one otherwise. -/
def callSplice (fuel : Nat) (h : Heap) (r : Nat) (st dc : Int) (items : List JSVal) :
    JsRes OpResult :=
  match h.getObj r with
  | none => JsRes.thrown h
  | some o =>
    match o.ob with
    | some _ =>
      match mutator fuel (ArrOp.splice st dc items) h r with
      | some pr => JsRes.ok pr.1 pr.2
      | none => JsRes.thrown h
    | none =>
      let p := nativeArrayOp (ArrOp.splice st dc items) o.elems
      JsRes.ok (h.setObj r { o with elems := p.1 }) p.2

/-- Model of `set(target, key, val)` (observer/index.js 249-294), dev build: warn
on an undefined/null/primitive target and continue; valid array index →
extend `length` and delegate to `splice`; existing own key (not from
`Object.prototype`) → plain assignment; a Vue instance or root `$data` →
warn and return; unobserved target → plain write; otherwise
`defineReactive(ob.value, key, val)` and `ob.dep.notify()`. The `key in
target` test throws a TypeError on non-object targets. -/
def vueSet (fuel : Nat) (h : Heap) (target key val : JSVal) : JsRes JSVal :=
  let h0 := if isUndefV target || isPrimitiveV target then h.warn else h
  if isArrayVal h0 target && isValidArrayIndexV key then
    match target with
    | JSVal.ref r =>
      match h0.getObj r with
      | some o =>
        let k := keyToNat key
        -- target.length = Math.max(target.length, key)
        let newLen := max o.elems.length k
        let h1 := h0.setObj r
          { o with elems := o.elems ++ List.replicate (newLen - o.elems.length) JSVal.undef }
        -- target.splice(key, 1, val)
        match callSplice fuel h1 r (Int.ofNat k) 1 [val] with
        | JsRes.ok h2 _ => JsRes.ok h2 val
        | JsRes.thrown h2 => JsRes.thrown h2
      | none => JsRes.thrown h0
    | _ => JsRes.thrown h0
  else
    match jsInOp h0 (jsKeyString key) target with
    | JsRes.thrown h1 => JsRes.thrown h1
    | JsRes.ok h1 b =>
      if b && !(objectProtoKeys.contains (jsKeyString key)) then
        match target with
        | JSVal.ref r => JsRes.ok (assignField fuel h1 r (jsKeyString key) val) val
        | _ => JsRes.thrown h1
      else
        -- const ob = (target: any).__ob__ : target is an object here,
        -- since the `in` test above threw for any other target
        match target with
        | JSVal.ref r =>
          match h1.getObj r with
          | none => JsRes.thrown h1
          | some o =>
            if o.isVue || obVmPositive h1 o then JsRes.ok h1.warn val
            else
              match o.ob with
              | none => JsRes.ok (assignField fuel h1 r (jsKeyString key) val) val
              | some obId =>
                let h2 := defineReactiveOn fuel h1 r (jsKeyString key) val
                match h1.obs[obId]? with
                | some orec => JsRes.ok (h2.notify orec.depId) val
                | none => JsRes.thrown h2
        | _ => JsRes.thrown h1

/-- Numeric value of a decimal digit character, `none` otherwise. -/
def charDigit? (c : Char) : Option Nat :=
  if 48 ≤ c.toNat && c.toNat ≤ 57 then some (c.toNat - 48) else none

/-- Decimal value accumulated over remaining digit characters; `none` on a
non-digit. -/
def decDigitsAcc : List Char → Nat → Option Nat
  | [], acc => some acc
  | c :: cs, acc =>
    match charDigit? c with
    | some d => decDigitsAcc cs (acc * 10 + d)
    | none => none

/-- The array index a character list canonically denotes: a nonempty digit
string with no leading zero (so exactly the ToString image of the index),
per the ECMAScript canonical-numeric-index-string test. -/
def canonicalIndex? : List Char → Option Nat
  | [] => none
  | c :: cs =>
    match charDigit? c with
    | none => none
    | some d => if d == 0 && !cs.isEmpty then none else decDigitsAcc cs d

/-- Model of `hasOwn(target, key)` (shared/util.js) for a string target:
`Object.prototype.hasOwnProperty.call` boxes the primitive, and a boxed
string owns exactly its canonical index properties (the indices below
its length) and `length`; boxed numbers and booleans own nothing. -/
def stringHasOwn (s : String) (key : String) : Bool :=
  key == "length" ||
    (match canonicalIndex? key.data with
     | some n => decide (n < s.length)
     | none => false)

/-- Model of `del(target, key)` (observer/index.js 299-325), dev build: warn on an
undefined/null/primitive target and continue; valid array index →
`target.splice(key, 1)`; reading `(target).__ob__` throws a TypeError on
`undefined`/`null` but boxes primitives (yielding `undefined`); a Vue
instance or root `$data` → warn and return; missing own key → return;
otherwise delete the key and, when observed, `ob.dep.notify()`. The
module is strict-mode code, so when the target is a string primitive
owning the key (a canonical index or `length`), `hasOwn` succeeds and
`delete target[key]` on the boxed string's non-configurable property
throws a TypeError; boxed numbers and booleans own no keys, so those
targets fall out at the `hasOwn` test as warned no-ops. -/
def vueDel (h : Heap) (target key : JSVal) : JsRes Unit :=
  let h0 := if isUndefV target || isPrimitiveV target then h.warn else h
  if isArrayVal h0 target && isValidArrayIndexV key then
    match target with
    | JSVal.ref r =>
      match callSplice 0 h0 r (Int.ofNat (keyToNat key)) 1 [] with
      | JsRes.ok h1 _ => JsRes.ok h1 ()
      | JsRes.thrown h1 => JsRes.thrown h1
    | _ => JsRes.thrown h0
  else
    match target with
    | JSVal.undef => JsRes.thrown h0
    | JSVal.nullv => JsRes.thrown h0
    | JSVal.ref r =>
      match h0.getObj r with
      | none => JsRes.thrown h0
      | some o =>
        if o.isVue || obVmPositive h0 o then JsRes.ok h0.warn ()
        else if !(fieldsGet (jsKeyString key) o.fields).isSome then JsRes.ok h0 ()
        else
          let h1 := h0.setObj r { o with fields := fieldsRemove (jsKeyString key) o.fields }
          match o.ob with
          | none => JsRes.ok h1 ()
          | some obId =>
            match h0.obs[obId]? with
            | some orec => JsRes.ok (h1.notify orec.depId) ()
            | none => JsRes.thrown h1
    | JSVal.str s =>
      if stringHasOwn s (jsKeyString key) then JsRes.thrown h0 else JsRes.ok h0 ()
    | _ => JsRes.ok h0 ()

/-! ## Heap evolution under observation

`observe` (and the Observer constructor it runs) only ever installs
`__ob__` markers and accessor bookkeeping: it never changes a value, an
element list, a kind, extensibility, `_isVue`, an existing `__ob__`, the
notify log or the warning counter. These predicates state that. -/

/-- How an object may change under observation: identity data untouched,
`__ob__` only gains, field values untouched (their reactive-accessor
bookkeeping may change). -/
def ObjEvolves (o o2 : JSObj) : Prop :=
  o2.kind = o.kind ∧ o2.extensible = o.extensible ∧ o2.isVue = o.isVue ∧
  o2.elems = o.elems ∧
  (∀ x, o.ob = some x → o2.ob = some x) ∧
  (∀ key fr, fieldsGet key o.fields = some fr →
    ∃ fr2, fieldsGet key o2.fields = some fr2 ∧ fr2.value = fr.value)

/-- How a heap may change under observation. -/
def HeapEvolves (h h2 : Heap) : Prop :=
  (∀ r o, h.getObj r = some o → ∃ o2, h2.getObj r = some o2 ∧ ObjEvolves o o2) ∧
  (∀ (i : Nat) (orec : ObserverRec), h.obs[i]? = some orec →
    ∃ orec2 : ObserverRec, h2.obs[i]? = some orec2 ∧ orec2.depId = orec.depId ∧
      orec2.valueRef = orec.valueRef) ∧
  h2.notifyLog = h.notifyLog ∧ h2.warnCount = h.warnCount ∧
  h2.shouldObserve = h.shouldObserve

/-! ## Scheduler state predicates used by the theorems -/

/-- All scheduler state is at its initial value: empty queue, cleared
membership set and circular counters, cursor zero, `waiting` and
`flushing` false. -/
def ResetProps (st : SchedState) : Prop :=
  st.queue = [] ∧ st.index = 0 ∧ st.waiting = false ∧ st.flushing = false ∧
  (∀ x, st.has x = false) ∧ (∀ x, st.circular x = 0)

/-- The invariant holding at the top of each flush-loop iteration:
flushing, the membership set is exactly the not-yet-run part of the
queue, and that part has no duplicate ids. -/
def FlushInv (s : SchedState) : Prop :=
  s.flushing = true ∧
  (∀ x, s.has x = true ↔ x ∈ s.queue.drop s.index) ∧
  (s.queue.drop s.index).Nodup

/-- The invariant holding while the cursor watcher is running (its own id
already cleared from the membership set). -/
def MidInv (s : SchedState) : Prop :=
  s.flushing = true ∧
  (∀ x, s.has x = true ↔ x ∈ s.queue.drop (s.index + 1)) ∧
  (s.queue.drop (s.index + 1)).Nodup ∧
  s.index < s.queue.length

/-! ## Concrete scenario instances used by witnesses and counterexamples -/

/-- A run behavior: watcher 1 unconditionally re-enqueues itself (a watch
callback that mutates its own dependency); every other watcher enqueues
nothing. -/
def rEdiv : Nat → Nat → RunOutcome :=
  fun _ w => if w == 1 then RunOutcome.ok [1] else RunOutcome.ok []

/-- A burst state with watchers 1 and 2 pending. -/
def sBurst : SchedState :=
  ⟨[1, 2], fun x => x == 1 || x == 2, fun _ => 0, true, false, 0, 1⟩

/-- A run behavior whose every watcher throws. -/
def rEthrow : Nat → Nat → RunOutcome :=
  fun _ _ => RunOutcome.throws []

/-- A burst state with only watcher 1 pending. -/
def sOne : SchedState :=
  ⟨[1], fun x => x == 1, fun _ => 0, true, false, 0, 1⟩

/-- A run behavior that enqueues nothing. -/
def rEnone : Nat → Nat → RunOutcome :=
  fun _ _ => RunOutcome.ok []

/-- A burst state with watchers 1 and 2 pending, enqueued as 2 then 1. -/
def sBurstRev : SchedState :=
  ⟨[2, 1], fun x => x == 1 || x == 2, fun _ => 0, true, false, 0, 1⟩

/-- A mid-flush state: cursor on watcher 1 whose per-flush circular count
already reached `MAX_UPDATE_COUNT`, watcher 2 behind it in the queue. -/
def sMid : SchedState :=
  ⟨[1, 2], fun x => x == 2, fun x => if x = 1 then 100 else 0, true, true, 0, 1⟩

/-- The empty heap. -/
def hEmpty : Heap := ⟨[], [], 0, [], 0, true⟩

/-- A heap with one unobserved plain extensible object at reference 0. -/
def hPlain : Heap :=
  ⟨[⟨ObjKind.plainObj, [("x", ⟨JSVal.num 1, none, none⟩)], [], true, false, none⟩],
   [], 0, [], 0, true⟩

/-- A heap with an observed array at reference 0 and an unobserved plain
object at reference 1. -/
def hArr : Heap :=
  ⟨[⟨ObjKind.arrayObj, [], [JSVal.num 1], true, false, some 0⟩,
    ⟨ObjKind.plainObj, [("y", ⟨JSVal.num 7, none, none⟩)], [], true, false, none⟩],
   [⟨0, 0, 0⟩], 1, [], 0, true⟩

/-- A heap with one plain object whose property `x` carries a reactive
accessor with dep uid 5. -/
def hReact : Heap :=
  ⟨[⟨ObjKind.plainObj, [("x", ⟨JSVal.num 1, some 5, none⟩)], [], true, false, none⟩],
   [], 6, [], 0, true⟩

/-- A scheduler-connected reactive cell with value 0 and the single
subscriber 7, over a pristine scheduler. -/
def csCell : CellSched :=
  ⟨JSVal.num 0, [7], ⟨[], fun _ => false, fun _ => 0, false, false, 0, 0⟩⟩

/-! # Theorems -/

/-! ## C10: target-stack discipline of Watcher.get -/

/-- Popping right after a push restores the stack and recomputes the
target from the new stack top. -/
theorem popTarget_pushTarget (t : Option Nat) (g : DepGlobals) :
    popTarget (pushTarget t g) =
      { targetStack := g.targetStack, target := (g.targetStack.getLast?).getD none } := by
  simp [popTarget, pushTarget]

/-- C10: every call to Watcher.get pushes the watcher onto the target
stack and, in its finally block, pops it and restores Dep.target to the
previously current watcher — for a normal return, a swallowed user-getter
error, and a rethrown non-user error alike — so arbitrarily nested
evaluations leave the stack and Dep.target exactly as they were before
the call (given the standing invariant that Dep.target is the stack
top). -/
theorem watcherGet_restores_target (self : Nat) (user : Bool) (outcome : GetOutcome)
    (g : DepGlobals) (hinv : g.target = (g.targetStack.getLast?).getD none) :
    ((watcherGet self user outcome g).1).targetStack = g.targetStack ∧
    ((watcherGet self user outcome g).1).target = g.target := by
  cases outcome with
  | value v =>
    simp [watcherGet, popTarget_pushTarget, hinv]
  | throws =>
    cases user <;> simp [watcherGet, popTarget_pushTarget, hinv]

/-- Witness for C10: a nested evaluation (stack already holding watcher 5)
whose non-user getter throws still restores the stack and target. -/
theorem watcherGet_restores_target_witness :
    ((watcherGet 9 false GetOutcome.throws ⟨[some 5], some 5⟩).1).targetStack = [some 5] ∧
    ((watcherGet 9 false GetOutcome.throws ⟨[some 5], some 5⟩).1).target = some 5 :=
  watcherGet_restores_target 9 false GetOutcome.throws ⟨[some 5], some 5⟩ (by decide)

/-! ## C9: computed (lazy) watcher caches until invalidated -/

/-- C9: for a lazy Computation, the first read through the computed getter
finds dirty = true, evaluates the underlying function once and clears
dirty; a second read with no update() in between returns the cached
watcher.value without re-evaluating — the underlying function runs
exactly once across the two reads, and both reads yield the getter's
value. -/
theorem computed_getter_caches (getterVal : JSVal) (dt1 dt2 : Bool) (w : ComputedW)
    (hdirty : w.dirty = true) :
    (computedGetterRead getterVal dt1 w).1.evalCount = w.evalCount + 1 ∧
    (computedGetterRead getterVal dt1 w).2 = getterVal ∧
    (computedGetterRead getterVal dt2 (computedGetterRead getterVal dt1 w).1).1
      = (computedGetterRead getterVal dt1 w).1 ∧
    (computedGetterRead getterVal dt2 (computedGetterRead getterVal dt1 w).1).2 = getterVal := by
  simp [computedGetterRead, cwEvaluate, cwGet, hdirty]

/-- Witness for C9: a fresh computed watcher read twice evaluates its
getter exactly once and serves the cached value. -/
theorem computed_getter_caches_witness :
    (computedGetterRead (JSVal.num 3) false ⟨JSVal.undef, true, 0⟩).1.evalCount = 0 + 1 ∧
    (computedGetterRead (JSVal.num 3) false ⟨JSVal.undef, true, 0⟩).2 = JSVal.num 3 ∧
    (computedGetterRead (JSVal.num 3) false
        (computedGetterRead (JSVal.num 3) false ⟨JSVal.undef, true, 0⟩).1).1
      = (computedGetterRead (JSVal.num 3) false ⟨JSVal.undef, true, 0⟩).1 ∧
    (computedGetterRead (JSVal.num 3) false
        (computedGetterRead (JSVal.num 3) false ⟨JSVal.undef, true, 0⟩).1).2 = JSVal.num 3 :=
  computed_getter_caches (JSVal.num 3) false false ⟨JSVal.undef, true, 0⟩ (by decide)

/-! ## C2: set/del on undefined, null and primitive targets -/

/-- Counterexample to C2 as stated: `set(undefined, "a", 1)` does not
return the attempted value — after the dev warning the code reaches
`key in target`, which throws a TypeError on a non-object target. -/
theorem set_on_undefined_throws :
    vueSet 1 hEmpty JSVal.undef (JSVal.str "a") (JSVal.num 1) = JsRes.thrown hEmpty.warn := by
  decide

/-- C2 (amended): on an undefined, null or primitive target, `set` reports
the dev warning but then throws a TypeError at the `key in target` test
(mutating nothing beyond the warning ghost); `del` likewise warns, then
throws at the `(target).__ob__` read when the target is undefined or
null; on a number, NaN or boolean target `del` warns and completes as a
silent no-op (the boxed wrapper owns no properties, so `hasOwn` fails),
while on a string target whose boxed wrapper owns the key (a canonical
index below the length, or `length`) the strict-mode
`delete target[key]` throws a TypeError after the warning, and only the
remaining string keys are warned no-ops. -/
theorem set_del_on_nonobjects (fuel : Nat) (h : Heap) (key val t : JSVal)
    (ht : (isUndefV t || isPrimitiveV t) = true) :
    vueSet fuel h t key val = JsRes.thrown h.warn ∧
    (isUndefV t = true → vueDel h t key = JsRes.thrown h.warn) ∧
    (isPrimitiveV t = true → (∀ s, t ≠ JSVal.str s) →
      vueDel h t key = JsRes.ok h.warn ()) ∧
    (∀ s, t = JSVal.str s →
      vueDel h t key =
        if stringHasOwn s (jsKeyString key) then JsRes.thrown h.warn
        else JsRes.ok h.warn ()) := by
  cases t
  case ref r => simp [isUndefV, isPrimitiveV] at ht
  all_goals simp_all [vueSet, vueDel, isUndefV, isPrimitiveV, isArrayVal, jsInOp]

/-- Witness for C2 (amended): the number 5 as target — `set` throws after
warning, `del` warns and no-ops; the string target "abc" with key "0" —
`del` warns, then the strict-mode `delete` of the boxed string's own
index property throws a TypeError. -/
theorem set_del_on_nonobjects_witness :
    vueSet 1 hEmpty (JSVal.num 5) (JSVal.str "a") (JSVal.num 1) = JsRes.thrown hEmpty.warn ∧
    vueDel hEmpty (JSVal.num 5) (JSVal.str "a") = JsRes.ok hEmpty.warn () ∧
    vueDel hEmpty (JSVal.str "abc") (JSVal.str "0") = JsRes.thrown hEmpty.warn := by
  have h1 := set_del_on_nonobjects 1 hEmpty (JSVal.str "a") (JSVal.num 1) (JSVal.num 5) (by decide)
  have h2 := set_del_on_nonobjects 1 hEmpty (JSVal.str "0") (JSVal.num 1)
    (JSVal.str "abc") (by decide)
  refine ⟨h1.1, ?_, ?_⟩
  · exact h1.2.2.1 (by decide) (fun s hs => JSVal.noConfusion hs)
  · have hd := h2.2.2.2 "abc" rfl
    rw [hd]
    decide

/-! ## Scheduler helper lemmas -/

/-- Enqueuing an already-pending watcher is a no-op. -/
theorem queueWatcher_pending (w : Nat) (s : SchedState) (h : s.has w = true) :
    queueWatcher w s = s := by
  simp [queueWatcher, h]

/-- Enqueuing a fresh watcher while not flushing appends it, marks it
pending, and schedules the deferred flush exactly when `waiting` was
false. -/
theorem queueWatcher_fresh (w : Nat) (s : SchedState)
    (hh : s.has w = false) (hf : s.flushing = false) :
    (queueWatcher w s).queue = s.queue ++ [w] ∧
    (queueWatcher w s).has w = true ∧
    (queueWatcher w s).waiting = true ∧
    (queueWatcher w s).flushing = false ∧
    (queueWatcher w s).scheduled = s.scheduled + (if s.waiting then 0 else 1) := by
  cases hw : s.waiting <;> simp [queueWatcher, setHas, hh, hf, hw]

/-- C5 helper: once the watcher is pending, any further dep.notify through
this cell leaves the scheduler untouched. -/
theorem cellSet_fold_pending (c : Nat) :
    ∀ (vals : List JSVal) (cs : CellSched), cs.subs = [c] → cs.sched.has c = true →
    (vals.foldl (fun st v => cellSet v st) cs).sched = cs.sched := by
  intro vals
  induction vals with
  | nil => intro cs _ _; rfl
  | cons v rest ih =>
    intro cs hsubs hhas
    have hstep : (cellSet v cs).sched = cs.sched := by
      unfold cellSet
      split
      · rfl
      · simp [depNotify, hsubs, queueWatcher_pending c cs.sched hhas]
    have hsubs2 : (cellSet v cs).subs = [c] := by
      unfold cellSet
      split <;> simp [hsubs]
    have := ih (cellSet v cs) hsubs2 (by rw [hstep]; exact hhas)
    simpa [hstep] using this

/-- C5: queueWatcher adds a Computation only when its id is absent from
the membership set; hence for a Computation C subscribed to a reactive
property, mutating the property to different values any number of times
before the flush enqueues C exactly once (it appears once in the queue
and stays marked pending), and only the first enqueue of a turn (waiting
flag false) registers the deferred flush. -/
theorem mutations_coalesce (vals : List JSVal) (c : Nat) (cs : CellSched)
    (hsubs : cs.subs = [c]) (hhas : cs.sched.has c = false)
    (hfl : cs.sched.flushing = false) (hnotin : c ∉ cs.sched.queue)
    (hne : vals ≠ []) (hch : chainChanges cs.val vals = true) :
    ((vals.foldl (fun st v => cellSet v st) cs).sched.queue.count c = 1) ∧
    ((vals.foldl (fun st v => cellSet v st) cs).sched.has c = true) ∧
    ((vals.foldl (fun st v => cellSet v st) cs).sched.scheduled
        = cs.sched.scheduled + (if cs.sched.waiting then 0 else 1)) := by
  cases vals with
  | nil => exact absurd rfl hne
  | cons v rest =>
    have hsc : setterChanges cs.val v = true := by
      simp only [chainChanges, Bool.and_eq_true] at hch
      exact hch.1
    have hguard : (jsEqB v cs.val || (!jsEqB v v && !jsEqB cs.val cs.val)) = false := by
      cases hb : (jsEqB v cs.val || (!jsEqB v v && !jsEqB cs.val cs.val))
      · rfl
      · unfold setterChanges at hsc
        rw [hb] at hsc
        simp at hsc
    have hfirst : (cellSet v cs).sched = depNotify cs.subs cs.sched := by
      unfold cellSet
      rw [if_neg]
      simp [hguard]
    have hdep : depNotify cs.subs cs.sched = queueWatcher c cs.sched := by
      rw [hsubs]; rfl
    have hq := queueWatcher_fresh c cs.sched hhas hfl
    have hsubs2 : (cellSet v cs).subs = [c] := by
      unfold cellSet
      split <;> simp [hsubs]
    have hrest := cellSet_fold_pending c rest (cellSet v cs) hsubs2
      (by rw [hfirst, hdep]; exact hq.2.1)
    have hfold : ((v :: rest).foldl (fun st v => cellSet v st) cs).sched
        = (queueWatcher c cs.sched) := by
      simp only [List.foldl_cons]
      rw [hrest, hfirst, hdep]
    refine ⟨?_, ?_, ?_⟩
    · rw [hfold, hq.1]
      simp [List.count_append]
      exact List.count_eq_zero.mpr hnotin
    · rw [hfold]; exact hq.2.1
    · rw [hfold]; exact hq.2.2.2.2

/-- Witness for C5: three successive distinct writes through a cell with
subscriber 7 enqueue watcher 7 once and schedule one flush. -/
theorem mutations_coalesce_witness :
    (([JSVal.num 1, JSVal.num 2, JSVal.num 3].foldl (fun st v => cellSet v st)
        csCell).sched.queue.count 7 = 1) ∧
    (([JSVal.num 1, JSVal.num 2, JSVal.num 3].foldl (fun st v => cellSet v st)
        csCell).sched.has 7 = true) ∧
    (([JSVal.num 1, JSVal.num 2, JSVal.num 3].foldl (fun st v => cellSet v st)
        csCell).sched.scheduled = csCell.sched.scheduled + (if csCell.sched.waiting then 0 else 1)) :=
  mutations_coalesce [JSVal.num 1, JSVal.num 2, JSVal.num 3] 7 csCell rfl rfl rfl
    (by decide) (by decide) (by decide)

/-- Lemma: `queueWatcher` never touches `flushing`, `index` or `circular`. -/
theorem queueWatcher_proj (w : Nat) (s : SchedState) :
    (queueWatcher w s).flushing = s.flushing ∧
    (queueWatcher w s).index = s.index ∧
    (queueWatcher w s).circular = s.circular := by
  cases hh : s.has w
  · cases hw : s.waiting <;> cases hf : s.flushing <;>
      simp [queueWatcher, setHas, hh, hw, hf]
  · simp [queueWatcher, hh]

/-- Lemma: `enqAll` never touches `flushing`, `index` or `circular`. -/
theorem enqAll_proj (l : List Nat) :
    ∀ s : SchedState, (enqAll l s).flushing = s.flushing ∧
      (enqAll l s).index = s.index ∧ (enqAll l s).circular = s.circular := by
  induction l with
  | nil => intro s; exact ⟨rfl, rfl, rfl⟩
  | cons w rest ih =>
    intro s
    have h1 := queueWatcher_proj w s
    have h2 := ih (queueWatcher w s)
    simp only [enqAll, List.foldl_cons] at h2 ⊢
    exact ⟨h2.1.trans h1.1, h2.2.1.trans h1.2.1, h2.2.2.trans h1.2.2⟩

/-- The reset state satisfies all reset properties. -/
theorem resetProps_reset (s : SchedState) : ResetProps (resetSchedulerState s) := by
  simp [ResetProps, resetSchedulerState]

/-- After the flush loop: a completed flush (epilogue or circular break)
leaves fully reset state; an exception escaping a run leaves `flushing`
still true. -/
theorem flushLoop_post (rE : Nat → Nat → RunOutcome) :
    ∀ (fuel : Nat) (s : SchedState) (tr : List Nat), s.flushing = true →
    ((flushLoop rE fuel s tr).result = FlushResult.completed →
        ResetProps (flushLoop rE fuel s tr).state) ∧
    ((flushLoop rE fuel s tr).result = FlushResult.errored →
        (flushLoop rE fuel s tr).state.flushing = true) := by
  intro fuel
  induction fuel with
  | zero =>
    intro s tr hf
    constructor <;> intro hres <;> simp [flushLoop] at hres
  | succ n ih =>
    intro s tr hf
    cases hcur : s.queue[s.index]? with
    | none =>
      constructor
      · intro _
        simp [flushLoop, hcur]
        exact resetProps_reset s
      · intro hres
        simp [flushLoop, hcur] at hres
    | some wid =>
      cases hrun : rE tr.length wid with
      | throws enq =>
        constructor
        · intro hres
          simp [flushLoop, hcur, hrun] at hres
        · intro _
          simp only [flushLoop, hcur, hrun]
          show (enqAll enq (setHas wid false s)).flushing = true
          rw [(enqAll_proj enq (setHas wid false s)).1]
          exact hf
      | ok enq =>
        have hf2 : (enqAll enq (setHas wid false s)).flushing = true := by
          rw [(enqAll_proj enq (setHas wid false s)).1]
          exact hf
        cases hh : (enqAll enq (setHas wid false s)).has wid with
        | false =>
          have ihr := ih (bumpIndex (enqAll enq (setHas wid false s))) (tr ++ [wid])
            (by simpa [bumpIndex] using hf2)
          simpa [flushLoop, hcur, hrun, hh] using ihr
        | true =>
          by_cases hover :
              MAX_UPDATE_COUNT < (enqAll enq (setHas wid false s)).circular wid + 1
          · constructor
            · intro _
              simp [flushLoop, hcur, hrun, hh, hover]
              exact resetProps_reset _
            · intro hres
              simp [flushLoop, hcur, hrun, hh, hover] at hres
          · have ihr := ih (bumpIndex (setCircular wid
                ((enqAll enq (setHas wid false s)).circular wid + 1)
                (enqAll enq (setHas wid false s)))) (tr ++ [wid])
              (by simpa [bumpIndex, setCircular] using hf2)
            simpa [flushLoop, hcur, hrun, hh, hover] using ihr

/-- C3 (amended): scheduler state is reset at the end of a flush exactly
when the loop completes (normally or via the circular-update break); if an
exception escapes a queued Computation's run(), `resetSchedulerState` is
skipped — `flushing` is left true, so the scheduler is in fact left
wedged. -/
theorem scheduler_reset_spec (rE : Nat → Nat → RunOutcome) (fuel : Nat) (s : SchedState) :
    ((flushSchedulerQueue rE fuel s).result = FlushResult.completed →
        ResetProps (flushSchedulerQueue rE fuel s).state) ∧
    ((flushSchedulerQueue rE fuel s).result = FlushResult.errored →
        (flushSchedulerQueue rE fuel s).state.flushing = true) := by
  exact flushLoop_post rE fuel _ [] rfl

/-- Counterexample to C3 as stated: with a single pending watcher whose
run() throws, the flush ends in an error and the scheduler state is NOT
reset — the queue still holds the watcher, `waiting` and `flushing` are
still true. -/
theorem flush_error_leaves_state :
    (flushSchedulerQueue rEthrow 3 sOne).result = FlushResult.errored ∧
    (flushSchedulerQueue rEthrow 3 sOne).state.flushing = true ∧
    (flushSchedulerQueue rEthrow 3 sOne).state.waiting = true ∧
    (flushSchedulerQueue rEthrow 3 sOne).state.queue = [1] := by
  refine ⟨?_, ?_, ?_, ?_⟩ <;> decide

/-- Witness for C3 (amended): the error half applied to the concrete
throwing scenario. -/
theorem scheduler_reset_spec_witness :
    (flushSchedulerQueue rEthrow 4 sBurst).state.flushing = true :=
  (scheduler_reset_spec rEthrow 4 sBurst).2 (by decide)

/-! ## C1: the circular-update ceiling -/

set_option maxRecDepth 100000

/-- Counterexample to C1 as stated: watcher 1 unconditionally re-enqueues
itself and watcher 2 is pending in the same flush behind it. When
watcher 1 exceeds MAX_UPDATE_COUNT the code `break`s out of the whole
loop, so watcher 2 — still pending — is never run in that flush, contrary
to the claim that every other pending Computation still runs. The
condition is reported (`warned`) and the flush epilogue still resets
state. -/
theorem divergence_break_skips_rest :
    2 ∈ sBurst.queue ∧ sBurst.has 2 = true ∧
    (flushSchedulerQueue rEdiv 150 sBurst).result = FlushResult.completed ∧
    (flushSchedulerQueue rEdiv 150 sBurst).warned = true ∧
    (flushSchedulerQueue rEdiv 150 sBurst).trace.count 1 = MAX_UPDATE_COUNT + 1 ∧
    2 ∉ (flushSchedulerQueue rEdiv 150 sBurst).trace := by
  refine ⟨by decide, by decide, by decide, by decide, by decide, by decide⟩

/-- C1 (amended): when the cursor Computation of a flush iteration got
itself re-enqueued and its per-flush counter exceeds MAX_UPDATE_COUNT,
the scheduler warns and `break`s out of the entire flush loop: the
divergent Computation is not re-run again, but no other Computation still
pending in the queue is run either — the iteration's trace ends at the
divergent watcher, the condition is reported, and the epilogue resets all
scheduler state. -/
theorem divergence_breaks_whole_flush (rE : Nat → Nat → RunOutcome) (fuel : Nat)
    (s : SchedState) (tr : List Nat) (wid : Nat) (enq : List Nat)
    (hcur : s.queue[s.index]? = some wid)
    (hrun : rE tr.length wid = RunOutcome.ok enq)
    (hre : (enqAll enq (setHas wid false s)).has wid = true)
    (hover : MAX_UPDATE_COUNT < (enqAll enq (setHas wid false s)).circular wid + 1) :
    flushLoop rE (fuel + 1) s tr =
      ⟨tr ++ [wid],
       resetSchedulerState (setCircular wid
         ((enqAll enq (setHas wid false s)).circular wid + 1)
         (enqAll enq (setHas wid false s))),
       FlushResult.completed, true⟩ := by
  simp [flushLoop, hcur, hrun, hre, hover]

/-- Witness for C1 (amended): a mid-flush state whose cursor watcher 1 is
at the ceiling and re-enqueues itself; the loop stops at once with the
reset epilogue, leaving pending watcher 2 unrun. -/
theorem divergence_breaks_whole_flush_witness :
    flushLoop rEdiv (5 + 1) sMid [] =
      ⟨[] ++ [1],
       resetSchedulerState (setCircular 1
         ((enqAll [1] (setHas 1 false sMid)).circular 1 + 1)
         (enqAll [1] (setHas 1 false sMid))),
       FlushResult.completed, true⟩ :=
  divergence_breaks_whole_flush rEdiv 5 sMid [] 1 [1] (by decide) (by decide)
    (by decide) (by decide)

/-! ## C4: flush ordering — splice and insert lemmas -/

/-- The splice scan never moves right. -/
theorem spliceSearch_le (queue : List Nat) (index wid : Nat) :
    ∀ i, spliceSearch queue index wid i ≤ i := by
  intro i
  induction i with
  | zero => simp [spliceSearch]
  | succ n ih =>
    simp only [spliceSearch]
    split
    · exact ih.trans (Nat.le_succ n)
    · exact Nat.le_refl _

/-- The splice scan never crosses the cursor. -/
theorem spliceSearch_ge (queue : List Nat) (index wid : Nat) :
    ∀ i, index ≤ i → index ≤ spliceSearch queue index wid i := by
  intro i
  induction i with
  | zero => intro h; simpa [spliceSearch] using h
  | succ n ih =>
    intro hle
    simp only [spliceSearch]
    split
    · rename_i hc
      simp only [Bool.and_eq_true, decide_eq_true_eq] at hc
      exact ih (Nat.lt_succ_iff.mp hc.1)
    · exact hle

/-- During a flush the splice inserts strictly behind the cursor and
within the queue. -/
theorem spliceInsertPos_bounds (queue : List Nat) (index wid : Nat)
    (h : index < queue.length) :
    index + 1 ≤ spliceInsertPos queue index wid ∧
    spliceInsertPos queue index wid ≤ queue.length := by
  have hne : queue.isEmpty = false := by
    cases queue
    · simp at h
    · rfl
  unfold spliceInsertPos
  rw [hne]
  simp only [Bool.false_eq_true, if_false]
  constructor
  · have := spliceSearch_ge queue index wid (queue.length - 1) (by omega)
    omega
  · have := spliceSearch_le queue index wid (queue.length - 1)
    omega

/-- Splice insertion is a permutation with pushing the element on top. -/
theorem listInsert_perm (n a : Nat) (l : List Nat) : listInsert n a l ~ a :: l := by
  unfold listInsert
  have h : l.take n ++ a :: l.drop n ~ a :: (l.take n ++ l.drop n) := List.perm_middle
  rw [List.take_append_drop] at h
  exact h

theorem mem_listInsert (n a x : Nat) (l : List Nat) :
    x ∈ listInsert n a l ↔ x = a ∨ x ∈ l := by
  rw [(listInsert_perm n a l).mem_iff]
  simp

theorem nodup_listInsert (n a : Nat) (l : List Nat) (ha : a ∉ l) (hl : l.Nodup) :
    (listInsert n a l).Nodup := by
  rw [(listInsert_perm n a l).nodup_iff]
  exact List.nodup_cons.mpr ⟨ha, hl⟩

theorem sublist_listInsert (n a : Nat) (l : List Nat) : l <+ listInsert n a l := by
  unfold listInsert
  conv_lhs => rw [← List.take_append_drop n l]
  exact List.Sublist.append_left (List.sublist_cons_self a _) _

theorem length_listInsert (n a : Nat) (l : List Nat) (h : n ≤ l.length) :
    (listInsert n a l).length = l.length + 1 := by
  unfold listInsert
  simp [List.length_take]
  omega

theorem drop_listInsert (n k a : Nat) (l : List Nat) (hk : k ≤ n) (hn : n ≤ l.length) :
    (listInsert n a l).drop k = listInsert (n - k) a (l.drop k) := by
  unfold listInsert
  rw [List.drop_append_of_le_length (by simp [List.length_take]; omega)]
  rw [List.drop_take]
  have h1 : k + (n - k) = n := by omega
  congr 1
  rw [List.drop_drop, h1]

/-! ## C4: the flush-loop invariants -/

/-- Enqueuing a fresh watcher mid-flush splices it into the queue,
leaving the cursor, the flushing flag and everything before the insert
position untouched. -/
theorem queueWatcher_flush_fresh (w : Nat) (s : SchedState)
    (hh : s.has w = false) (hf : s.flushing = true) :
    (queueWatcher w s).queue = listInsert (spliceInsertPos s.queue s.index w) w s.queue ∧
    (∀ x, (queueWatcher w s).has x = if x = w then true else s.has x) ∧
    (queueWatcher w s).index = s.index ∧
    (queueWatcher w s).flushing = true := by
  cases hw : s.waiting <;> simp [queueWatcher, setHas, hh, hf, hw]

/-- Lemma: `queueWatcher` preserves the mid-iteration invariant, the cursor, and
keeps the not-yet-run tail a supersequence of what it was. -/
theorem queueWatcher_mid (w : Nat) (s : SchedState) (hs : MidInv s) :
    MidInv (queueWatcher w s) ∧
    (queueWatcher w s).index = s.index ∧
    s.queue.drop (s.index + 1) <+ (queueWatcher w s).queue.drop (s.index + 1) := by
  obtain ⟨hf, hhas, hnd, hlen⟩ := hs
  cases hh : s.has w with
  | true =>
    rw [queueWatcher_pending w s hh]
    exact ⟨⟨hf, hhas, hnd, hlen⟩, rfl, List.Sublist.refl _⟩
  | false =>
    obtain ⟨hq, hhs, hidx, hfl⟩ := queueWatcher_flush_fresh w s hh hf
    have hpos := spliceInsertPos_bounds s.queue s.index w hlen
    have hdrop : (queueWatcher w s).queue.drop (s.index + 1)
        = listInsert (spliceInsertPos s.queue s.index w - (s.index + 1)) w
            (s.queue.drop (s.index + 1)) := by
      rw [hq]
      exact drop_listInsert _ _ w s.queue hpos.1 hpos.2
    have hwnot : w ∉ s.queue.drop (s.index + 1) := by
      intro hmem
      have := (hhas w).mpr hmem
      rw [hh] at this
      cases this
    refine ⟨⟨hfl, ?_, ?_, ?_⟩, hidx, ?_⟩
    · intro x
      rw [hidx, hdrop, hhs x, mem_listInsert]
      by_cases hx : x = w
      · simp [hx]
      · simp [hx, hhas x]
    · rw [hidx, hdrop]
      exact nodup_listInsert _ _ _ hwnot hnd
    · rw [hidx, hq, length_listInsert _ w s.queue hpos.2]
      omega
    · rw [hdrop]
      exact sublist_listInsert _ _ _

/-- Lemma: `enqAll` preserves the mid-iteration invariant and the cursor, and
only ever extends the not-yet-run tail. -/
theorem enqAll_mid (enq : List Nat) :
    ∀ s : SchedState, MidInv s →
    MidInv (enqAll enq s) ∧ (enqAll enq s).index = s.index ∧
    s.queue.drop (s.index + 1) <+ (enqAll enq s).queue.drop (s.index + 1) := by
  induction enq with
  | nil => intro s hs; exact ⟨hs, rfl, List.Sublist.refl _⟩
  | cons w rest ih =>
    intro s hs
    have h1 := queueWatcher_mid w s hs
    have h2 := ih (queueWatcher w s) h1.1
    simp only [enqAll, List.foldl_cons] at h2 ⊢
    refine ⟨h2.1, h2.2.1.trans h1.2.1, ?_⟩
    have hsub2 := h2.2.2
    rw [h1.2.1] at hsub2
    exact h1.2.2.trans hsub2

/-- Reading the cursor watcher and clearing it from the membership set
establishes the mid-iteration invariant; the not-yet-run part was the
cursor consed onto the tail. -/
theorem midInv_of_cursor (s : SchedState) (wid : Nat) (hs : FlushInv s)
    (hcur : s.queue[s.index]? = some wid) :
    MidInv (setHas wid false s) ∧
    s.queue.drop s.index = wid :: s.queue.drop (s.index + 1) := by
  obtain ⟨hf, hhas, hnd⟩ := hs
  have hlt : s.index < s.queue.length := by
    by_contra hge
    rw [List.getElem?_eq_none (by omega)] at hcur
    cases hcur
  have hdropeq : s.queue.drop s.index = wid :: s.queue.drop (s.index + 1) := by
    rw [List.drop_eq_getElem_cons hlt]
    have : s.queue[s.index] = wid := by
      have := List.getElem?_eq_getElem hlt
      rw [hcur] at this
      exact (Option.some.injEq _ _).mp this.symm
    rw [this]
  have hwnot : wid ∉ s.queue.drop (s.index + 1) := by
    have := hnd
    rw [hdropeq] at this
    exact (List.nodup_cons.mp this).1
  refine ⟨⟨hf, ?_, ?_, hlt⟩, hdropeq⟩
  · intro x
    simp only [setHas]
    by_cases hx : x = wid
    · subst hx
      simp only [if_pos rfl]
      constructor
      · intro h; cases h
      · intro h; exact absurd h hwnot
    · rw [if_neg hx, hhas x, hdropeq]
      simp [hx]
  · have := hnd
    rw [hdropeq] at this
    exact (List.nodup_cons.mp this).2

/-- Lemma: `setCircular` leaves every MidInv-relevant field unchanged. -/
theorem midInv_setCircular (wid c : Nat) (s : SchedState) (hs : MidInv s) :
    MidInv (setCircular wid c s) :=
  hs

/-- Advancing the cursor after an iteration restores the top-of-iteration
invariant. -/
theorem flushInv_bump (s : SchedState) (hs : MidInv s) : FlushInv (bumpIndex s) := by
  obtain ⟨hf, hhas, hnd, _⟩ := hs
  exact ⟨hf, fun x => by simpa [bumpIndex] using hhas x, by simpa [bumpIndex] using hnd⟩

/-- The flush loop only appends to the trace accumulator. -/
theorem flushLoop_trace_extend (rE : Nat → Nat → RunOutcome) :
    ∀ (fuel : Nat) (s : SchedState) (tr : List Nat),
    ∃ ext, (flushLoop rE fuel s tr).trace = tr ++ ext := by
  intro fuel
  induction fuel with
  | zero => intro s tr; exact ⟨[], by simp [flushLoop]⟩
  | succ n ih =>
    intro s tr
    cases hcur : s.queue[s.index]? with
    | none => exact ⟨[], by simp [flushLoop, hcur]⟩
    | some wid =>
      cases hrun : rE tr.length wid with
      | throws enq => exact ⟨[wid], by simp [flushLoop, hcur, hrun]⟩
      | ok enq =>
        by_cases hh : (enqAll enq (setHas wid false s)).has wid = true
        · by_cases hover :
              MAX_UPDATE_COUNT < (enqAll enq (setHas wid false s)).circular wid + 1
          · exact ⟨[wid], by simp [flushLoop, hcur, hrun, hh, hover]⟩
          · obtain ⟨ext, hext⟩ := ih (bumpIndex (setCircular wid
                ((enqAll enq (setHas wid false s)).circular wid + 1)
                (enqAll enq (setHas wid false s)))) (tr ++ [wid])
            refine ⟨wid :: ext, ?_⟩
            simp only [flushLoop, hcur, hrun, hh, hover, if_true, if_false]
            simp [hext]
        · obtain ⟨ext, hext⟩ := ih (bumpIndex (enqAll enq (setHas wid false s))) (tr ++ [wid])
          refine ⟨wid :: ext, ?_⟩
          simp only [flushLoop, hcur, hrun, hh]
          simp [hext]

/-- If `p` occurs in a prefix free of `q`, then `p` occurs before the
first `q` of the whole list. -/
theorem mem_takeWhile_append (p q : Nat) (l1 l2 : List Nat) (hp : p ∈ l1) (hq : q ∉ l1) :
    p ∈ (l1 ++ l2).takeWhile (fun x => x != q) := by
  induction l1 with
  | nil => cases hp
  | cons a t ih =>
    have haq : (a != q) = true := by
      simp only [bne_iff_ne, ne_eq]
      intro he
      exact hq (he ▸ List.mem_cons_self a t)
    simp only [List.cons_append, List.takeWhile_cons, haq, if_true]
    cases hp with
    | head => exact List.mem_cons_self _ _
    | tail _ hp2 =>
      exact List.mem_cons_of_mem _
        (ih hp2 (fun hq2 => hq (List.mem_cons_of_mem a hq2)))

/-- The heart of C4: in any continuation of a flush whose not-yet-run
queue part contains `p` (strictly) before `q`, if `q` ever runs then `p`
ran earlier: `p` appears in the trace before the first occurrence of
`q`. -/
theorem flushLoop_first_ordering (rE : Nat → Nat → RunOutcome) (p q : Nat) (hpq : p ≠ q) :
    ∀ (fuel : Nat) (s : SchedState) (tr : List Nat), FlushInv s →
    [p, q] <+ s.queue.drop s.index → q ∉ tr →
    q ∈ (flushLoop rE fuel s tr).trace →
    p ∈ ((flushLoop rE fuel s tr).trace.takeWhile (fun x => x != q)) := by
  intro fuel
  induction fuel with
  | zero =>
    intro s tr _ _ hqtr hqmem
    simp only [flushLoop] at hqmem
    exact absurd hqmem hqtr
  | succ n ih =>
    intro s tr hinv hsub hqtr hqmem
    cases hcur : s.queue[s.index]? with
    | none =>
      have hnil : s.queue.drop s.index = [] := by
        have hle : s.queue.length ≤ s.index := by
          by_contra hgt
          rw [List.getElem?_eq_getElem (by omega)] at hcur
          cases hcur
        exact List.drop_eq_nil_of_le hle
      rw [hnil, List.sublist_nil] at hsub
      cases hsub
    | some wid =>
      obtain ⟨hmid, hdropeq⟩ := midInv_of_cursor s wid hinv hcur
      rw [hdropeq] at hsub
      cases hsub with
      | cons₂ htail2 =>
        -- the cursor is p itself: after this iteration p is in the trace
        -- before any later q
        have hqnot : q ∉ tr ++ [p] := by
          intro hmem
          rcases List.mem_append.mp hmem with h1 | h2
          · exact hqtr h1
          · simp at h2
            exact hpq h2.symm
        cases hrun : rE tr.length p with
        | throws enq =>
          have htr : (flushLoop rE (n + 1) s tr).trace = tr ++ [p] := by
            simp [flushLoop, hcur, hrun]
          rw [htr] at hqmem
          exact absurd hqmem hqnot
        | ok enq =>
          by_cases hh : (enqAll enq (setHas p false s)).has p = true
          · by_cases hover :
                MAX_UPDATE_COUNT < (enqAll enq (setHas p false s)).circular p + 1
            · have htr : (flushLoop rE (n + 1) s tr).trace = tr ++ [p] := by
                simp [flushLoop, hcur, hrun, hh, hover]
              rw [htr] at hqmem
              exact absurd hqmem hqnot
            · have heq : flushLoop rE (n + 1) s tr
                  = flushLoop rE n (bumpIndex (setCircular p
                      ((enqAll enq (setHas p false s)).circular p + 1)
                      (enqAll enq (setHas p false s)))) (tr ++ [p]) := by
                simp [flushLoop, hcur, hrun, hh, hover]
              rw [heq] at hqmem ⊢
              obtain ⟨ext, hext⟩ := flushLoop_trace_extend rE n (bumpIndex (setCircular p
                  ((enqAll enq (setHas p false s)).circular p + 1)
                  (enqAll enq (setHas p false s)))) (tr ++ [p])
              rw [hext] at hqmem ⊢
              have hpmem : p ∈ tr ++ [p] := by simp
              exact mem_takeWhile_append p q (tr ++ [p]) ext hpmem hqnot
          · have heq : flushLoop rE (n + 1) s tr
                = flushLoop rE n (bumpIndex (enqAll enq (setHas p false s)))
                    (tr ++ [p]) := by
              simp [flushLoop, hcur, hrun, hh]
            rw [heq] at hqmem ⊢
            obtain ⟨ext, hext⟩ := flushLoop_trace_extend rE n
              (bumpIndex (enqAll enq (setHas p false s))) (tr ++ [p])
            rw [hext] at hqmem ⊢
            have hpmem : p ∈ tr ++ [p] := by simp
            exact mem_takeWhile_append p q (tr ++ [p]) ext hpmem hqnot
      | cons htail =>
        -- the cursor is not relevant: [p, q] is still within the tail
        rename_i htail
        have hqtail : q ∈ s.queue.drop (s.index + 1) := htail.subset (by simp)
        have hptail : p ∈ s.queue.drop (s.index + 1) := htail.subset (by simp)
        have hwidq : wid ≠ q := by
          intro he
          subst he
          have hnd := hinv.2.2
          rw [hdropeq] at hnd
          exact (List.nodup_cons.mp hnd).1 hqtail
        have hqnot : q ∉ tr ++ [wid] := by
          intro hmem
          rcases List.mem_append.mp hmem with h1 | h2
          · exact hqtr h1
          · simp at h2
            exact hwidq h2.symm
        cases hrun : rE tr.length wid with
        | throws enq =>
          have htr : (flushLoop rE (n + 1) s tr).trace = tr ++ [wid] := by
            simp [flushLoop, hcur, hrun]
          rw [htr] at hqmem
          exact absurd hqmem hqnot
        | ok enq =>
          have hmid2 := enqAll_mid enq _ hmid
          have hidx2 : (enqAll enq (setHas wid false s)).index = s.index := hmid2.2.1
          have hsub2 : [p, q] <+
              (enqAll enq (setHas wid false s)).queue.drop (s.index + 1) := by
            have hstep := hmid2.2.2
            exact htail.trans hstep
          by_cases hh : (enqAll enq (setHas wid false s)).has wid = true
          · by_cases hover :
                MAX_UPDATE_COUNT < (enqAll enq (setHas wid false s)).circular wid + 1
            · have htr : (flushLoop rE (n + 1) s tr).trace = tr ++ [wid] := by
                simp [flushLoop, hcur, hrun, hh, hover]
              rw [htr] at hqmem
              exact absurd hqmem hqnot
            · have heq : flushLoop rE (n + 1) s tr
                  = flushLoop rE n (bumpIndex (setCircular wid
                      ((enqAll enq (setHas wid false s)).circular wid + 1)
                      (enqAll enq (setHas wid false s)))) (tr ++ [wid]) := by
                simp [flushLoop, hcur, hrun, hh, hover]
              rw [heq] at hqmem ⊢
              apply ih _ (tr ++ [wid]) ?_ ?_ hqnot hqmem
              · exact flushInv_bump _ (midInv_setCircular _ _ _ hmid2.1)
              · show [p, q] <+ _
                simp only [bumpIndex, setCircular]
                rw [hidx2]
                exact hsub2
          · have heq : flushLoop rE (n + 1) s tr
                = flushLoop rE n (bumpIndex (enqAll enq (setHas wid false s)))
                    (tr ++ [wid]) := by
              simp [flushLoop, hcur, hrun, hh]
            rw [heq] at hqmem ⊢
            apply ih _ (tr ++ [wid]) ?_ ?_ hqnot hqmem
            · exact flushInv_bump _ hmid2.1
            · show [p, q] <+ _
              simp only [bumpIndex]
              rw [hidx2]
              exact hsub2

/-- In a list sorted by `≤`, any member `p` strictly below another member
`q` occurs (as a pair) in order. -/
theorem pair_sublist_of_sorted :
    ∀ (l : List Nat), l.Pairwise (fun a b => a ≤ b) →
    ∀ p q : Nat, p ∈ l → q ∈ l → p < q → [p, q] <+ l := by
  intro l
  induction l with
  | nil => intro _ p q hp; cases hp
  | cons a t ih =>
    intro hpw p q hp hq hlt
    have ha := (List.pairwise_cons.mp hpw).1
    have ht := (List.pairwise_cons.mp hpw).2
    have hqt : q ∈ t := by
      rcases List.mem_cons.mp hq with hqa | hq2
      · subst hqa
        rcases List.mem_cons.mp hp with hpa | hp2
        · omega
        · have := ha p hp2
          omega
      · exact hq2
    rcases List.mem_cons.mp hp with hpa | hp2
    · subst hpa
      exact List.Sublist.cons₂ _ (List.singleton_sublist.mpr hqt)
    · exact (ih ht p q hp2 hqt hlt).cons _

/-- C4: flushSchedulerQueue sorts the pending queue by ascending watcher
id before running it, and insertions during the flush never jump the
cursor; hence for Computations P and Q with P.id < Q.id, both enqueued in
the same synchronous burst (both in the queue, pending, no duplicates),
if Q runs in the resulting flush then P has already run: P appears in the
run trace strictly before the first occurrence of Q. -/
theorem flush_runs_in_id_order (rE : Nat → Nat → RunOutcome) (fuel : Nat) (s : SchedState)
    (p q : Nat) (hp : p ∈ s.queue) (hq : q ∈ s.queue) (hpq : p < q)
    (hhas : ∀ x, s.has x = true ↔ x ∈ s.queue) (hnd : s.queue.Nodup) :
    q ∈ (flushSchedulerQueue rE fuel s).trace →
    p ∈ ((flushSchedulerQueue rE fuel s).trace.takeWhile (fun x => x != q)) := by
  intro hqmem
  have hperm : s.queue.insertionSort (fun a b => a ≤ b) ~ s.queue :=
    List.perm_insertionSort _ _
  have hsorted : (s.queue.insertionSort (fun a b => a ≤ b)).Pairwise (fun a b => a ≤ b) :=
    List.sorted_insertionSort _ _
  have hinv : FlushInv
      { s with
        flushing := true
        queue := s.queue.insertionSort (fun a b => a ≤ b)
        index := 0 } := by
    refine ⟨rfl, ?_, ?_⟩
    · intro x
      simp only [List.drop_zero]
      exact (hhas x).trans hperm.mem_iff.symm
    · simp only [List.drop_zero]
      exact hperm.nodup_iff.mpr hnd
  have hsub : [p, q] <+
      ({ s with
         flushing := true
         queue := s.queue.insertionSort (fun a b => a ≤ b)
         index := 0 } : SchedState).queue.drop 0 := by
    rw [List.drop_zero]
    exact pair_sublist_of_sorted _ hsorted p q (hperm.mem_iff.mpr hp)
      (hperm.mem_iff.mpr hq) hpq
  simp only [flushSchedulerQueue] at hqmem ⊢
  exact flushLoop_first_ordering rE p q (Nat.ne_of_lt hpq) fuel _ [] hinv hsub
    (by simp) hqmem

/-- Witness for C4: watchers 2 and 1 enqueued in that order in one burst;
the flush runs 1 before 2. -/
theorem flush_runs_in_id_order_witness :
    1 ∈ ((flushSchedulerQueue rEnone 5 sBurstRev).trace.takeWhile (fun x => x != 2)) :=
  flush_runs_in_id_order rEnone 5 sBurstRev 1 2 (by decide) (by decide) (by decide)
    (fun x => by simp [sBurstRev]; omega) (by decide) (by decide)

/-! ## C6/C7/C8: heap-evolution lemmas for observe -/

theorem objEvolves_rfl (o : JSObj) : ObjEvolves o o :=
  ⟨rfl, rfl, rfl, rfl, fun _ hx => hx, fun _ fr hf => ⟨fr, hf, rfl⟩⟩

theorem objEvolves_trans (a b c : JSObj) (h1 : ObjEvolves a b) (h2 : ObjEvolves b c) :
    ObjEvolves a c := by
  obtain ⟨k1, e1, v1, l1, ob1, f1⟩ := h1
  obtain ⟨k2, e2, v2, l2, ob2, f2⟩ := h2
  refine ⟨k2.trans k1, e2.trans e1, v2.trans v1, l2.trans l1,
    fun x hx => ob2 x (ob1 x hx), ?_⟩
  intro key fr hf
  obtain ⟨fr2, hf2, hv2⟩ := f1 key fr hf
  obtain ⟨fr3, hf3, hv3⟩ := f2 key fr2 hf2
  exact ⟨fr3, hf3, hv3.trans hv2⟩

theorem heapEvolves_rfl (h : Heap) : HeapEvolves h h :=
  ⟨fun _ o ho => ⟨o, ho, objEvolves_rfl o⟩,
   fun _ orec hi => ⟨orec, hi, rfl, rfl⟩, rfl, rfl, rfl⟩

theorem heapEvolves_trans (a b c : Heap) (h1 : HeapEvolves a b) (h2 : HeapEvolves b c) :
    HeapEvolves a c := by
  obtain ⟨o1, b1, n1, w1, s1⟩ := h1
  obtain ⟨o2, b2, n2, w2, s2⟩ := h2
  refine ⟨?_, ?_, n2.trans n1, w2.trans w1, s2.trans s1⟩
  · intro r o ho
    obtain ⟨oo, hoo, he1⟩ := o1 r o ho
    obtain ⟨oo2, hoo2, he2⟩ := o2 r oo hoo
    exact ⟨oo2, hoo2, objEvolves_trans _ _ _ he1 he2⟩
  · intro i orec hi
    obtain ⟨r2, hr2, hd2, hv2⟩ := b1 i orec hi
    obtain ⟨r3, hr3, hd3, hv3⟩ := b2 i r2 hr2
    exact ⟨r3, hr3, hd3.trans hd2, hv3.trans hv2⟩

/-- A heap with the same objects, observers and ghosts evolves from any
heap it copies them from. -/
theorem heapEvolves_of_parts (h h2 : Heap) (ho : h2.objs = h.objs) (hb : h2.obs = h.obs)
    (hn : h2.notifyLog = h.notifyLog) (hw : h2.warnCount = h.warnCount)
    (hs : h2.shouldObserve = h.shouldObserve) : HeapEvolves h h2 := by
  refine ⟨?_, ?_, hn, hw, hs⟩
  · intro r o hoo
    refine ⟨o, ?_, objEvolves_rfl o⟩
    show h2.objs[r]? = some o
    rw [ho]
    exact hoo
  · intro i orec hi
    refine ⟨orec, ?_, rfl, rfl⟩
    show h2.obs[i]? = some orec
    rw [hb]
    exact hi

theorem heapEvolves_foldl {α : Type} (f : Heap → α → Heap)
    (hf : ∀ (h : Heap) (a : α), HeapEvolves h (f h a)) :
    ∀ (l : List α) (h : Heap), HeapEvolves h (l.foldl f h) := by
  intro l
  induction l with
  | nil => intro h; exact heapEvolves_rfl h
  | cons a t ih =>
    intro h
    exact heapEvolves_trans _ _ _ (hf h a) (ih (f h a))

/-- Replacing an object by an evolution of itself evolves the heap. -/
theorem heapEvolves_setObj (h : Heap) (r : Nat) (o o2 : JSObj)
    (ho : h.getObj r = some o) (hoe : ObjEvolves o o2) :
    HeapEvolves h (h.setObj r o2) := by
  have hlt : r < h.objs.length := by
    by_contra hge
    have hnone : h.objs[r]? = none := List.getElem?_eq_none (by omega)
    rw [show h.getObj r = h.objs[r]? from rfl, hnone] at ho
    cases ho
  refine ⟨?_, fun i orec hi => ⟨orec, hi, rfl, rfl⟩, rfl, rfl, rfl⟩
  intro r2 o3 h3
  by_cases hr : r2 = r
  · subst hr
    rw [ho] at h3
    injection h3 with h3
    subst h3
    refine ⟨o2, ?_, hoe⟩
    show (h.objs.set r2 o2)[r2]? = some o2
    rw [List.getElem?_set_self hlt]
  · refine ⟨o3, ?_, objEvolves_rfl o3⟩
    show (h.objs.set r o2)[r2]? = some o3
    rw [List.getElem?_set_ne (fun he => hr he.symm)]
    exact h3

/-- Installing a fresh `__ob__` marker evolves the heap. -/
theorem heapEvolves_setOb (h : Heap) (r : Nat) (o : JSObj) (obId : Nat)
    (ho : h.getObj r = some o) (hob : o.ob = none) :
    HeapEvolves h (h.setObj r { o with ob := some obId }) := by
  refine heapEvolves_setObj h r o _ ho ?_
  refine ⟨rfl, rfl, rfl, rfl, ?_, fun _ fr hf => ⟨fr, hf, rfl⟩⟩
  intro x hx
  rw [hob] at hx
  cases hx

/-- Appending a fresh Observer record (and bumping the Dep uid) evolves
the heap. -/
theorem heapEvolves_observerAlloc (h : Heap) (r : Nat) :
    HeapEvolves h (observerAlloc h r) := by
  refine ⟨fun r2 o ho => ⟨o, ho, objEvolves_rfl o⟩, ?_, rfl, rfl, rfl⟩
  intro i or2 hi
  refine ⟨or2, ?_, rfl, rfl⟩
  have hlt : i < h.obs.length := by
    by_contra hge
    rw [List.getElem?_eq_none (by omega)] at hi
    cases hi
  show (h.obs ++ [(⟨r, h.nextDepId, 0⟩ : ObserverRec)])[i]? = some or2
  rw [List.getElem?_append, if_pos hlt]
  exact hi

/-- The freshly allocated Observer still sees the object. -/
theorem observerAlloc_getObj (h : Heap) (r r2 : Nat) :
    (observerAlloc h r).getObj r2 = h.getObj r2 :=
  rfl

/-- Lemma: `vmCount++` on an observer record evolves the heap. -/
theorem heapEvolves_bumpVm (h : Heap) (obId : Nat) :
    HeapEvolves h { h with obs := bumpVm obId h.obs } := by
  refine ⟨fun r o ho => ⟨o, ho, objEvolves_rfl o⟩, ?_, rfl, rfl, rfl⟩
  intro i orec hi
  unfold bumpVm
  cases hb : h.obs[obId]? with
  | none => exact ⟨orec, hi, rfl, rfl⟩
  | some ob0 =>
    have hlt : obId < h.obs.length := by
      by_contra hge
      rw [List.getElem?_eq_none (by omega)] at hb
      cases hb
    by_cases hio : i = obId
    · subst hio
      rw [hb] at hi
      injection hi with hi
      refine ⟨{ ob0 with vmCount := ob0.vmCount + 1 }, ?_, ?_, ?_⟩
      · show (h.obs.set i _)[i]? = _
        rw [List.getElem?_set_self hlt]
      · show ob0.depId = orec.depId
        rw [hi]
      · show ob0.valueRef = orec.valueRef
        rw [hi]
    · refine ⟨orec, ?_, rfl, rfl⟩
      show (h.obs.set obId _)[i]? = some orec
      rw [List.getElem?_set_ne (fun he => hio he.symm)]
      exact hi

theorem fieldsGet_fieldsSet_self (key : String) (fr : FieldRec) :
    ∀ l, fieldsGet key (fieldsSet key fr l) = some fr := by
  intro l
  induction l with
  | nil => simp [fieldsSet, fieldsGet]
  | cons kf t ih =>
    obtain ⟨k, f⟩ := kf
    by_cases hk : k = key
    · simp [fieldsSet, fieldsGet, hk]
    · simp [fieldsSet, fieldsGet, hk, ih]

theorem fieldsGet_fieldsSet_ne (key key2 : String) (fr : FieldRec) (hne : key2 ≠ key) :
    ∀ l, fieldsGet key2 (fieldsSet key fr l) = fieldsGet key2 l := by
  intro l
  induction l with
  | nil =>
    have hk : ¬(key = key2) := fun he => hne he.symm
    simp [fieldsSet, fieldsGet, hk]
  | cons kf t ih =>
    obtain ⟨k, f⟩ := kf
    by_cases hk : k = key
    · have hkk2 : ¬(key = key2) := fun he => hne he.symm
      simp [fieldsSet, fieldsGet, hk, hkk2]
    · by_cases hk2 : k = key2
      · simp [fieldsSet, fieldsGet, hk, hk2, hne]
      · simp [fieldsSet, fieldsGet, hk, hk2, ih]

/-- One `walk` step evolves the heap, whatever the recursive observer
does, as long as it evolves heaps itself. -/
theorem walkStep_evolves (recObs : Heap → JSVal → Heap × Option Nat)
    (hrec : ∀ (h : Heap) (v : JSVal), HeapEvolves h (recObs h v).1)
    (r : Nat) (h : Heap) (key : String) :
    HeapEvolves h (walkStep recObs r h key) := by
  unfold walkStep
  have hbase : HeapEvolves h { h with nextDepId := h.nextDepId + 1 } :=
    heapEvolves_of_parts _ _ rfl rfl rfl rfl rfl
  cases ho : Heap.getObj { h with nextDepId := h.nextDepId + 1 } r with
  | none => simpa [ho] using hbase
  | some o =>
    cases hf : fieldsGet key o.fields with
    | none => simpa [ho, hf] using hbase
    | some fr =>
      simp only [ho, hf]
      refine heapEvolves_trans _ _ _ hbase ?_
      set h1 := { h with nextDepId := h.nextDepId + 1 } with hh1
      refine heapEvolves_trans _ _ _ (hrec h1 fr.value) ?_
      cases ho2 : Heap.getObj (recObs h1 fr.value).1 r with
      | none => simp [ho2]; exact heapEvolves_rfl _
      | some o2 =>
        cases hf2 : fieldsGet key o2.fields with
        | none => simp [ho2, hf2]; exact heapEvolves_rfl _
        | some fr2 =>
          simp only [ho2, hf2]
          refine heapEvolves_setObj _ r o2 _ ho2 ?_
          refine ⟨rfl, rfl, rfl, rfl, fun x hx => hx, ?_⟩
          intro key2 fr3 hf3
          by_cases hk : key2 = key
          · subst hk
            rw [hf2] at hf3
            injection hf3 with hf3
            subst hf3
            exact ⟨_, fieldsGet_fieldsSet_self key2 _ o2.fields, rfl⟩
          · rw [fieldsGet_fieldsSet_ne key key2 _ hk o2.fields]
            exact ⟨fr3, hf3, rfl⟩

/-- One `observe` step evolves the heap. -/
theorem observeStep_evolves (recObs : Heap → JSVal → Heap × Option Nat) (can : Bool)
    (hrec : ∀ (h : Heap) (v : JSVal), HeapEvolves h (recObs h v).1)
    (h : Heap) (v : JSVal) (ar : Bool) :
    HeapEvolves h (observeStep recObs can h v ar).1 := by
  cases v with
  | ref r =>
    unfold observeStep
    dsimp only
    cases ho : h.getObj r with
    | none => exact heapEvolves_rfl h
    | some o =>
      by_cases hk : (o.kind == ObjKind.vnodeObj) = true
      · simp only [hk, if_true]
        exact heapEvolves_rfl h
      · have hkf : (o.kind == ObjKind.vnodeObj) = false := by
          cases hkk : (o.kind == ObjKind.vnodeObj)
          · rfl
          · exact absurd hkk hk
        simp only [hkf, Bool.false_eq_true, if_false]
        cases hob : o.ob with
        | some obId =>
          cases ar
          · exact heapEvolves_rfl h
          · simpa using heapEvolves_bumpVm h obId
        | none =>
          by_cases hg : (h.shouldObserve &&
              (o.kind == ObjKind.arrayObj || o.kind == ObjKind.plainObj)
              && o.extensible && !o.isVue && can) = true
          · simp only [hg, if_true]
            have h1ev := heapEvolves_observerAlloc h r
            have hob1 : (observerAlloc h r).getObj r = some o := ho
            have h2ev := heapEvolves_setOb (observerAlloc h r) r o h.obs.length hob1 hob
            have h3ev : HeapEvolves
                ((observerAlloc h r).setObj r { o with ob := some h.obs.length })
                (if o.kind == ObjKind.arrayObj then
                  o.elems.foldl (fun hh e => (recObs hh e).1)
                    ((observerAlloc h r).setObj r { o with ob := some h.obs.length })
                else
                  (o.fields.map Prod.fst).foldl (walkStep recObs r)
                    ((observerAlloc h r).setObj r { o with ob := some h.obs.length })) := by
              split
              · exact heapEvolves_foldl _ (fun hh e => hrec hh e) o.elems _
              · exact heapEvolves_foldl _ (walkStep_evolves recObs hrec r) _ _
            have hchain := heapEvolves_trans _ _ _ h1ev (heapEvolves_trans _ _ _ h2ev h3ev)
            cases ar
            · simpa using hchain
            · simp only [Bool.true_eq, if_true]
              exact heapEvolves_trans _ _ _ hchain (heapEvolves_bumpVm _ h.obs.length)
          · have hgf : (h.shouldObserve &&
                (o.kind == ObjKind.arrayObj || o.kind == ObjKind.plainObj)
                && o.extensible && !o.isVue && can) = false := by
              cases hgg : (h.shouldObserve &&
                  (o.kind == ObjKind.arrayObj || o.kind == ObjKind.plainObj)
                  && o.extensible && !o.isVue && can)
              · rfl
              · exact absurd hgg hg
            simp only [hgf, Bool.false_eq_true, if_false]
            exact heapEvolves_rfl h
  | undef => unfold observeStep; exact heapEvolves_rfl h
  | nullv => unfold observeStep; exact heapEvolves_rfl h
  | boolean b => unfold observeStep; exact heapEvolves_rfl h
  | num n => unfold observeStep; exact heapEvolves_rfl h
  | nan => unfold observeStep; exact heapEvolves_rfl h
  | str s => unfold observeStep; exact heapEvolves_rfl h

/-- Lemma: `observe` evolves the heap: it installs bookkeeping but never changes
values, elements, kinds, existing observers, or the ghost logs. -/
theorem observe_evolves :
    ∀ (fuel : Nat) (h : Heap) (v : JSVal) (ar : Bool),
    HeapEvolves h (observe fuel h v ar).1 := by
  intro fuel
  induction fuel with
  | zero =>
    intro h v ar
    exact observeStep_evolves _ false (fun h2 _ => heapEvolves_rfl h2) h v ar
  | succ n ih =>
    intro h v ar
    exact observeStep_evolves _ true (fun h2 v2 => ih h2 v2 false) h v ar

/-- Lemma: `observe` on a value that already carries an Observer returns that
Observer and leaves the heap untouched. -/
theorem observe_existing (fuel : Nat) (h : Heap) (r : Nat) (o : JSObj) (obId : Nat)
    (ho : h.getObj r = some o) (hk : o.kind ≠ ObjKind.vnodeObj) (hob : o.ob = some obId) :
    observe fuel h (JSVal.ref r) false = (h, some obId) := by
  have hko : (o.kind == ObjKind.vnodeObj) = false := by
    simp [hk]
  cases fuel <;> simp [observe, observeStep, ho, hko, hob]

/-- When `observe` returns an Observer, the value is an object whose
`__ob__` is that Observer in the resulting heap (and it is no VNode). -/
theorem observeStep_some_ob (recObs : Heap → JSVal → Heap × Option Nat) (can : Bool)
    (hrec : ∀ (h : Heap) (v : JSVal), HeapEvolves h (recObs h v).1)
    (h : Heap) (v : JSVal) (h2 : Heap) (obId : Nat)
    (hobs : observeStep recObs can h v false = (h2, some obId)) :
    ∃ r o2, v = JSVal.ref r ∧ h2.getObj r = some o2 ∧ o2.ob = some obId ∧
      o2.kind ≠ ObjKind.vnodeObj := by
  cases v with
  | ref r =>
    unfold observeStep at hobs
    dsimp only at hobs
    cases ho : h.getObj r with
    | none =>
      rw [ho] at hobs
      injection hobs with _ hbad
      cases hbad
    | some o =>
      rw [ho] at hobs
      dsimp only at hobs
      by_cases hk : (o.kind == ObjKind.vnodeObj) = true
      · rw [if_pos hk] at hobs
        injection hobs with _ hbad
        cases hbad
      · rw [if_neg hk] at hobs
        have hkne : o.kind ≠ ObjKind.vnodeObj := by
          intro he
          exact hk (by simp [he])
        cases hob : o.ob with
        | some x =>
          rw [hob] at hobs
          injection hobs with hh hx
          injection hx with hx
          subst hh
          subst hx
          exact ⟨r, o, rfl, ho, hob, hkne⟩
        | none =>
          rw [hob] at hobs
          by_cases hg : (h.shouldObserve &&
              (o.kind == ObjKind.arrayObj || o.kind == ObjKind.plainObj)
              && o.extensible && !o.isVue && can) = true
          · rw [if_pos hg] at hobs
            injection hobs with hh hx
            injection hx with hx
            have hlt : r < h.objs.length := by
              by_contra hge
              have hnone : h.objs[r]? = none := List.getElem?_eq_none (by omega)
              rw [show h.getObj r = h.objs[r]? from rfl, hnone] at ho
              cases ho
            have hmid : ((observerAlloc h r).setObj r
                  { o with ob := some h.obs.length }).getObj r
                = some { o with ob := some h.obs.length } := by
              show (_ : List JSObj)[r]? = _
              simp only [Heap.setObj, observerAlloc]
              rw [List.getElem?_set_self (by simpa using hlt)]
            have hfolds : HeapEvolves
                ((observerAlloc h r).setObj r { o with ob := some h.obs.length })
                (if o.kind == ObjKind.arrayObj then
                  o.elems.foldl (fun hh e => (recObs hh e).1)
                    ((observerAlloc h r).setObj r { o with ob := some h.obs.length })
                else
                  (o.fields.map Prod.fst).foldl (walkStep recObs r)
                    ((observerAlloc h r).setObj r { o with ob := some h.obs.length })) := by
              split
              · exact heapEvolves_foldl _ (fun hh e => hrec hh e) o.elems _
              · exact heapEvolves_foldl _ (walkStep_evolves recObs hrec r) _ _
            obtain ⟨o2, ho2, hoe⟩ := hfolds.1 r _ hmid
            refine ⟨r, o2, rfl, ?_, ?_, ?_⟩
            · rw [← hh]
              exact ho2
            · rw [← hx]
              exact hoe.2.2.2.2.1 h.obs.length rfl
            · rw [hoe.1]
              exact hkne
          · rw [if_neg hg] at hobs
            injection hobs with _ hbad
            cases hbad
  | undef => unfold observeStep at hobs; simp at hobs
  | nullv => unfold observeStep at hobs; simp at hobs
  | boolean b => unfold observeStep at hobs; simp at hobs
  | num n => unfold observeStep at hobs; simp at hobs
  | nan => unfold observeStep at hobs; simp at hobs
  | str s => unfold observeStep at hobs; simp at hobs

/-- Lift of `observeStep_some_ob` to `observe` at any fuel. -/
theorem observe_some_ob (fuel : Nat) (h : Heap) (v : JSVal) (h2 : Heap) (obId : Nat)
    (hobs : observe fuel h v false = (h2, some obId)) :
    ∃ r o2, v = JSVal.ref r ∧ h2.getObj r = some o2 ∧ o2.ob = some obId ∧
      o2.kind ≠ ObjKind.vnodeObj := by
  cases fuel with
  | zero =>
    exact observeStep_some_ob _ false (fun h3 _ => heapEvolves_rfl h3) h v h2 obId hobs
  | succ n =>
    exact observeStep_some_ob _ true (fun h3 v3 => observe_evolves n h3 v3 false) h v h2 obId hobs

/-- C6: observe is idempotent. A first call that yields an Observer leaves
the value carrying it as `__ob__`; any second call takes the
`hasOwn(value, '__ob__')` branch, returns that same Observer instance and
constructs nothing (the heap, in particular the Observer table, is
returned unchanged). -/
theorem observe_idempotent (fuel1 fuel2 : Nat) (h : Heap) (v : JSVal) (h2 : Heap) (obId : Nat)
    (hfirst : observe fuel1 h v false = (h2, some obId)) :
    observe fuel2 h2 v false = (h2, some obId) := by
  obtain ⟨r, o2, hv, ho2, hob2, hk2⟩ := observe_some_ob fuel1 h v h2 obId hfirst
  subst hv
  exact observe_existing fuel2 h2 r o2 obId ho2 hk2 hob2

/-- Witness for C6: observing a plain object twice returns the same
Observer and the unchanged heap. -/
theorem observe_idempotent_witness :
    observe 1 (observe 2 hPlain (JSVal.ref 0) false).1 (JSVal.ref 0) false
      = ((observe 2 hPlain (JSVal.ref 0) false).1, some 0) :=
  observe_idempotent 2 1 hPlain (JSVal.ref 0) (observe 2 hPlain (JSVal.ref 0) false).1 0
    (by decide)

/-- On an observable value (plain or array object, extensible, not a Vue
instance, observation enabled) `observe` with fuel available returns an
Observer. -/
theorem observe_returns_some (fuel : Nat) (h : Heap) (r : Nat) (o : JSObj)
    (ho : h.getObj r = some o)
    (hk : o.kind = ObjKind.plainObj ∨ o.kind = ObjKind.arrayObj)
    (hx : o.extensible = true) (hv : o.isVue = false) (hso : h.shouldObserve = true) :
    ∃ h3 z, observe (fuel + 1) h (JSVal.ref r) false = (h3, some z) := by
  have hkv : o.kind ≠ ObjKind.vnodeObj := by
    rcases hk with h1 | h1 <;> simp [h1]
  cases hob : o.ob with
  | some x => exact ⟨h, x, observe_existing (fuel + 1) h r o x ho hkv hob⟩
  | none =>
    have hkvf : (o.kind == ObjKind.vnodeObj) = false := by simp [hkv]
    have hkor : (o.kind == ObjKind.arrayObj || o.kind == ObjKind.plainObj) = true := by
      rcases hk with h1 | h1 <;> simp [h1]
    refine ⟨(observe (fuel + 1) h (JSVal.ref r) false).1, h.obs.length, ?_⟩
    have hsnd : (observe (fuel + 1) h (JSVal.ref r) false).2 = some h.obs.length := by
      simp [observe, observeStep, ho, hkvf, hob, hso, hkor, hx, hv]
    exact Prod.ext rfl hsnd

/-- After observing an observable value, its object carries an
Observer. -/
theorem observe_ensures_ob (fuel : Nat) (h : Heap) (r : Nat) (o : JSObj)
    (ho : h.getObj r = some o)
    (hk : o.kind = ObjKind.plainObj ∨ o.kind = ObjKind.arrayObj)
    (hx : o.extensible = true) (hv : o.isVue = false) (hso : h.shouldObserve = true) :
    ∃ o2, ((observe (fuel + 1) h (JSVal.ref r) false).1).getObj r = some o2 ∧
      o2.ob.isSome = true := by
  obtain ⟨h3, z, heq⟩ := observe_returns_some fuel h r o ho hk hx hv hso
  obtain ⟨r2, o2, hv2, ho2, hob2, _⟩ := observe_some_ob (fuel + 1) h _ h3 z heq
  injection hv2 with hrr
  subst hrr
  rw [heq]
  exact ⟨o2, ho2, by simp [hob2]⟩

/-! ## C7: the reactive setter -/

theorem getObj_lt (h : Heap) (r : Nat) (o : JSObj) (ho : h.getObj r = some o) :
    r < h.objs.length := by
  by_contra hge
  have hnone : h.objs[r]? = none := List.getElem?_eq_none (by omega)
  rw [show h.getObj r = h.objs[r]? from rfl, hnone] at ho
  cases ho

theorem getObj_setObj_self (h : Heap) (r : Nat) (o o0 : JSObj)
    (ho : h.getObj r = some o0) :
    (h.setObj r o).getObj r = some o := by
  show (h.objs.set r o)[r]? = some o
  rw [List.getElem?_set_self (getObj_lt h r o0 ho)]

theorem getObj_setObj_ne (h : Heap) (r r2 : Nat) (o : JSObj) (hne : r2 ≠ r) :
    (h.setObj r o).getObj r2 = h.getObj r2 := by
  show (h.objs.set r o)[r2]? = h.objs[r2]?
  rw [List.getElem?_set_ne (fun he => hne he.symm)]

/-- Lemma: `setChildOb` stores the new childOb on the field, keeping its value. -/
theorem setChildOb_value (h : Heap) (r : Nat) (key : String) (co : Option Nat)
    (o : JSObj) (fr : FieldRec) (ho : h.getObj r = some o)
    (hf : fieldsGet key o.fields = some fr) :
    ∃ o2, (setChildOb h r key co).getObj r = some o2 ∧
      fieldsGet key o2.fields = some { fr with childOb := co } ∧ o2.ob = o.ob := by
  unfold setChildOb
  simp only [ho, hf]
  refine ⟨_, getObj_setObj_self h r _ o ho, ?_, rfl⟩
  exact fieldsGet_fieldsSet_self key _ o.fields

theorem setChildOb_notifyLog (h : Heap) (r : Nat) (key : String) (co : Option Nat) :
    (setChildOb h r key co).notifyLog = h.notifyLog := by
  unfold setChildOb
  cases ho : h.getObj r with
  | none => simp only [ho]
  | some o =>
    simp only [ho]
    cases hf : fieldsGet key o.fields with
    | none => simp only [hf]
    | some fr =>
      simp only [hf]
      rfl

/-- Lemma: `setChildOb` never changes any object's `__ob__`. -/
theorem setChildOb_ob (h : Heap) (r : Nat) (key : String) (co : Option Nat) (r2 : Nat)
    (o2 : JSObj) (ho2 : h.getObj r2 = some o2) :
    ∃ o3, (setChildOb h r key co).getObj r2 = some o3 ∧ o3.ob = o2.ob := by
  unfold setChildOb
  cases ho : h.getObj r with
  | none =>
    simp only [ho]
    exact ⟨o2, ho2, rfl⟩
  | some o =>
    simp only [ho]
    cases hf : fieldsGet key o.fields with
    | none =>
      simp only [hf]
      exact ⟨o2, ho2, rfl⟩
    | some fr =>
      simp only [hf]
      by_cases hr : r2 = r
      · subst hr
        rw [ho] at ho2
        injection ho2 with ho2
        refine ⟨_, getObj_setObj_self h r2 _ o ho, ?_⟩
        show o.ob = o2.ob
        rw [ho2]
      · rw [getObj_setObj_ne h r r2 _ hr]
        exact ⟨o2, ho2, rfl⟩

/-- C7: the reactive setter installed by defineReactive. Assigning a value
equal to the current one under identity/NaN-aware equality is a complete
no-op (the heap — stored value, observers, notify log — is returned
unchanged, so zero subscriber re-runs are triggered); otherwise the new
value is committed to the property, observed if it is an observable
structured value, and the property's Dependency is notified exactly once
(the notify log grows by exactly its dep uid). -/
theorem reactive_setter_spec (fuel : Nat) (h : Heap) (r : Nat) (key : String)
    (newVal : JSVal) (o : JSObj) (fr : FieldRec) (depId : Nat)
    (ho : h.getObj r = some o) (hf : fieldsGet key o.fields = some fr)
    (hd : fr.dep = some depId) :
    ((jsEqB newVal fr.value || (!jsEqB newVal newVal && !jsEqB fr.value fr.value)) = true →
      reactiveSetter fuel h r key newVal = h) ∧
    ((jsEqB newVal fr.value || (!jsEqB newVal newVal && !jsEqB fr.value fr.value)) = false →
      (∃ o2 fr2, (reactiveSetter fuel h r key newVal).getObj r = some o2 ∧
        fieldsGet key o2.fields = some fr2 ∧ fr2.value = newVal) ∧
      (reactiveSetter fuel h r key newVal).notifyLog = h.notifyLog ++ [depId]) ∧
    ((jsEqB newVal fr.value || (!jsEqB newVal newVal && !jsEqB fr.value fr.value)) = false →
      ∀ f2 r2 oc, fuel = f2 + 1 → newVal = JSVal.ref r2 →
      h.getObj r2 = some oc → (oc.kind = ObjKind.plainObj ∨ oc.kind = ObjKind.arrayObj) →
      oc.extensible = true → oc.isVue = false → h.shouldObserve = true →
      ∃ o3, (reactiveSetter fuel h r key newVal).getObj r2 = some o3 ∧
        o3.ob.isSome = true) := by
  have hred : (jsEqB newVal fr.value ||
        (!jsEqB newVal newVal && !jsEqB fr.value fr.value)) = false →
      reactiveSetter fuel h r key newVal =
        Heap.notify (setChildOb
          (observe fuel (h.setObj r
            { o with fields := fieldsSet key { fr with value := newVal } o.fields })
            newVal false).1
          r key
          (observe fuel (h.setObj r
            { o with fields := fieldsSet key { fr with value := newVal } o.fields })
            newVal false).2) depId := by
    intro hguard
    simp [reactiveSetter, ho, hf, hguard, hd]
  refine ⟨?_, ?_, ?_⟩
  · intro hguard
    simp [reactiveSetter, ho, hf, hguard]
  · intro hguard
    rw [hred hguard]
    have hobj1 : (h.setObj r
        { o with fields := fieldsSet key { fr with value := newVal } o.fields }).getObj r
        = some { o with fields := fieldsSet key { fr with value := newVal } o.fields } :=
      getObj_setObj_self h r _ o ho
    have hfld1 : fieldsGet key
        (fieldsSet key { fr with value := newVal } o.fields) =
        some { fr with value := newVal } :=
      fieldsGet_fieldsSet_self key _ o.fields
    have hev := observe_evolves fuel (h.setObj r
      { o with fields := fieldsSet key { fr with value := newVal } o.fields }) newVal false
    obtain ⟨o2, ho2, hoe⟩ := hev.1 r _ hobj1
    obtain ⟨fr2, hf2, hval2⟩ := hoe.2.2.2.2.2 key { fr with value := newVal } hfld1
    obtain ⟨o3, ho3, hf3, _⟩ := setChildOb_value _ r key _ o2 fr2 ho2 hf2
    constructor
    · refine ⟨o3, _, ho3, hf3, ?_⟩
      exact hval2
    · show (setChildOb _ r key _).notifyLog ++ [depId] = h.notifyLog ++ [depId]
      rw [setChildOb_notifyLog, hev.2.2.1]
      rfl
  · intro hguard f2 r2 oc hfuel hnv hoc hkind hext hvue hso
    rw [hred hguard]
    subst hfuel
    subst hnv
    have hcond : ∃ oc1, (h.setObj r { o with fields := fieldsSet key { fr with value := JSVal.ref r2 } o.fields }).getObj r2 = some oc1 ∧ oc1.kind = oc.kind ∧ oc1.extensible = oc.extensible ∧ oc1.isVue = oc.isVue := by
      by_cases hr : r2 = r
      · subst hr
        rw [hoc] at ho
        injection ho with ho
        subst ho
        refine ⟨_, getObj_setObj_self h r2 _ oc hoc, rfl, rfl, rfl⟩
      · rw [getObj_setObj_ne h r r2 _ hr]
        exact ⟨oc, hoc, rfl, rfl, rfl⟩
    obtain ⟨oc1, hoc1, hck, hce, hcv⟩ := hcond
    have hens := observe_ensures_ob f2 (h.setObj r
        { o with fields := fieldsSet key { fr with value := JSVal.ref r2 } o.fields })
      r2 oc1 hoc1 (by rw [hck]; exact hkind) (by rw [hce]; exact hext)
      (by rw [hcv]; exact hvue) hso
    obtain ⟨o2b, ho2b, hsome⟩ := hens
    obtain ⟨x, hx⟩ := Option.isSome_iff_exists.mp hsome
    obtain ⟨o3, ho3, hob3⟩ := setChildOb_ob _ r key _ r2 o2b ho2b
    refine ⟨o3, ho3, ?_⟩
    rw [hob3, hx]
    rfl

/-- Witness for C7: on the concrete reactive cell `x = 1` with dep uid 5,
re-assigning 1 changes nothing; assigning 2 notifies dep 5 exactly
once. -/
theorem reactive_setter_spec_witness :
    reactiveSetter 1 hReact 0 "x" (JSVal.num 1) = hReact ∧
    (reactiveSetter 1 hReact 0 "x" (JSVal.num 2)).notifyLog = hReact.notifyLog ++ [5] := by
  have t1 := reactive_setter_spec 1 hReact 0 "x" (JSVal.num 1)
    ⟨ObjKind.plainObj, [("x", ⟨JSVal.num 1, some 5, none⟩)], [], true, false, none⟩
    ⟨JSVal.num 1, some 5, none⟩ 5 (by decide) (by decide) (by decide)
  have t2 := reactive_setter_spec 1 hReact 0 "x" (JSVal.num 2)
    ⟨ObjKind.plainObj, [("x", ⟨JSVal.num 1, some 5, none⟩)], [], true, false, none⟩
    ⟨JSVal.num 1, some 5, none⟩ 5 (by decide) (by decide) (by decide)
  exact ⟨t1.1 (by decide), (t2.2.1 (by decide)).2⟩

/-! ## C8: the seven intercepted array mutators -/

/-- Lemma: `ob.observeArray(inserted)` leaves every inserted observable object
carrying an Observer. -/
theorem observeArrayList_ensures (f2 : Nat) :
    ∀ (l : List JSVal) (h : Heap) (r2 : Nat) (oc : JSObj),
    JSVal.ref r2 ∈ l → h.getObj r2 = some oc →
    (oc.kind = ObjKind.plainObj ∨ oc.kind = ObjKind.arrayObj) →
    oc.extensible = true → oc.isVue = false → h.shouldObserve = true →
    ∃ o3, (observeArrayList (f2 + 1) h l).getObj r2 = some o3 ∧ o3.ob.isSome = true := by
  intro l
  induction l with
  | nil =>
    intro h r2 oc hm
    cases hm
  | cons v t ih =>
    intro h r2 oc hm hoc hk hx hv hso
    have hstep : observeArrayList (f2 + 1) h (v :: t)
        = observeArrayList (f2 + 1) (observe (f2 + 1) h v false).1 t := rfl
    rcases List.mem_cons.mp hm with hv1 | hmt
    · subst hv1
      obtain ⟨o3, ho3, hs3⟩ := observe_ensures_ob f2 h r2 oc hoc hk hx hv hso
      obtain ⟨x, hx2⟩ := Option.isSome_iff_exists.mp hs3
      have hfold := heapEvolves_foldl (fun hh vv => (observe (f2 + 1) hh vv false).1)
        (fun hh vv => observe_evolves (f2 + 1) hh vv false) t
        (observe (f2 + 1) h (JSVal.ref r2) false).1
      obtain ⟨o4, ho4, hoe⟩ := hfold.1 r2 o3 ho3
      rw [hstep]
      refine ⟨o4, ho4, ?_⟩
      rw [hoe.2.2.2.2.1 x hx2]
      rfl
    · have hev := observe_evolves (f2 + 1) h v false
      obtain ⟨oc1, hoc1, hoe⟩ := hev.1 r2 oc hoc
      rw [hstep]
      exact ih _ r2 oc1 hmt hoc1 (by rw [hoe.1]; exact hk) (by rw [hoe.2.1]; exact hx)
        (by rw [hoe.2.2.1]; exact hv) (by rw [hev.2.2.2.2]; exact hso)

/-- C8: each of the seven intercepted array methods on an observed array
performs the underlying native mutation (the stored elements become
exactly the native result and the native return value is produced), makes
`observeArray` leave every observable inserted element (push/unshift
arguments, splice items) carrying an Observer, and notifies the array
Observer's Dependency exactly once per invocation. -/
theorem array_mutator_spec (fuel : Nat) (op : ArrOp) (h : Heap) (r : Nat) (o : JSObj)
    (obId : Nat) (orec : ObserverRec)
    (ho : h.getObj r = some o) (hob : o.ob = some obId) (horec : h.obs[obId]? = some orec) :
    ∃ h2, mutator fuel op h r = some (h2, (nativeArrayOp op o.elems).2) ∧
      (∃ o2, h2.getObj r = some o2 ∧ o2.elems = (nativeArrayOp op o.elems).1) ∧
      h2.notifyLog = h.notifyLog ++ [orec.depId] ∧
      (∀ ins, insertedOf op = some ins →
        ∀ f2 r2 oc, fuel = f2 + 1 → JSVal.ref r2 ∈ ins → h.getObj r2 = some oc →
        (oc.kind = ObjKind.plainObj ∨ oc.kind = ObjKind.arrayObj) →
        oc.extensible = true → oc.isVue = false → h.shouldObserve = true →
        ∃ o3, h2.getObj r2 = some o3 ∧ o3.ob.isSome = true) := by
  obtain ⟨ok, ofs, oel, oex, oiv, oob⟩ := o
  dsimp only at hob
  subst hob
  dsimp only
  have hobj1 : (h.setObj r ⟨ok, ofs, (nativeArrayOp op oel).1, oex, oiv, some obId⟩).getObj r
      = some ⟨ok, ofs, (nativeArrayOp op oel).1, oex, oiv, some obId⟩ :=
    getObj_setObj_self h r _ _ ho
  cases hins : insertedOf op with
  | none =>
    refine ⟨(h.setObj r ⟨ok, ofs, (nativeArrayOp op oel).1, oex, oiv, some obId⟩).notify
      orec.depId, ?_, ?_, ?_, ?_⟩
    · unfold mutator
      simp only [ho, hins]
      rw [show (h.setObj r
          ⟨ok, ofs, (nativeArrayOp op oel).1, oex, oiv, some obId⟩).obs[obId]?
          = some orec from horec]
    · exact ⟨_, hobj1, rfl⟩
    · rfl
    · intro ins hbad
      cases hbad
  | some ins =>
    have hevl := heapEvolves_foldl (fun hh vv => (observe fuel hh vv false).1)
      (fun hh vv => observe_evolves fuel hh vv false) ins
      (h.setObj r ⟨ok, ofs, (nativeArrayOp op oel).1, oex, oiv, some obId⟩)
    obtain ⟨orec2, horec2, hdep2, _⟩ := hevl.2.1 obId orec horec
    refine ⟨(observeArrayList fuel
        (h.setObj r ⟨ok, ofs, (nativeArrayOp op oel).1, oex, oiv, some obId⟩) ins).notify
      orec2.depId, ?_, ?_, ?_, ?_⟩
    · unfold mutator
      simp only [ho, hins]
      rw [show (observeArrayList fuel
          (h.setObj r ⟨ok, ofs, (nativeArrayOp op oel).1, oex, oiv, some obId⟩)
          ins).obs[obId]? = some orec2 from horec2]
    · obtain ⟨o2, ho2, hoe⟩ := hevl.1 r _ hobj1
      exact ⟨o2, ho2, hoe.2.2.2.1⟩
    · show (List.foldl (fun hh vv => (observe fuel hh vv false).1)
          (h.setObj r ⟨ok, ofs, (nativeArrayOp op oel).1, oex, oiv, some obId⟩)
          ins).notifyLog ++ [orec2.depId] = h.notifyLog ++ [orec.depId]
      rw [hevl.2.2.1, hdep2]
      rfl
    · intro ins2 hins2 f2 r2 oc hfuel hmem hoc hk hx hv hso
      injection hins2 with hins2
      subst hins2
      subst hfuel
      have hcond : ∃ oc1, (h.setObj r ⟨ok, ofs, (nativeArrayOp op oel).1, oex, oiv, some obId⟩).getObj r2 = some oc1 ∧ oc1.kind = oc.kind ∧ oc1.extensible = oc.extensible ∧ oc1.isVue = oc.isVue := by
        by_cases hr : r2 = r
        · subst hr
          rw [hoc] at ho
          injection ho with ho
          refine ⟨_, hobj1, ?_, ?_, ?_⟩ <;> rw [ho]
        · rw [getObj_setObj_ne h r r2 _ hr]
          exact ⟨oc, hoc, rfl, rfl, rfl⟩
      obtain ⟨oc1, hoc1, hck, hce, hcv⟩ := hcond
      obtain ⟨o3, ho3, hs3⟩ := observeArrayList_ensures f2 ins _ r2 oc1 hmem hoc1
        (by rw [hck]; exact hk) (by rw [hce]; exact hx) (by rw [hcv]; exact hv) hso
      exact ⟨o3, ho3, hs3⟩

/-- Witness for C8: pushing an unobserved plain object onto the observed
array notifies dep 0 once, appends natively, and the pushed object ends
up observed. -/
theorem array_mutator_spec_witness :
    (∃ h2, mutator 2 (ArrOp.push [JSVal.ref 1]) hArr 0
        = some (h2, (nativeArrayOp (ArrOp.push [JSVal.ref 1])
            [JSVal.num 1]).2) ∧
      (∃ o2, h2.getObj 0 = some o2 ∧
        o2.elems = (nativeArrayOp (ArrOp.push [JSVal.ref 1]) [JSVal.num 1]).1) ∧
      h2.notifyLog = hArr.notifyLog ++ [0] ∧
      (∃ o3, h2.getObj 1 = some o3 ∧ o3.ob.isSome = true)) := by
  obtain ⟨h2, hm, he, hn, hins⟩ := array_mutator_spec 2 (ArrOp.push [JSVal.ref 1]) hArr 0
    ⟨ObjKind.arrayObj, [], [JSVal.num 1], true, false, some 0⟩ 0 ⟨0, 0, 0⟩
    (by decide) (by decide) (by decide)
  refine ⟨h2, hm, he, hn, ?_⟩
  exact hins [JSVal.ref 1] (by decide) 1 1
    ⟨ObjKind.plainObj, [("y", ⟨JSVal.num 7, none, none⟩)], [], true, false, none⟩
    (by decide) (by decide) (by decide) (by decide) (by decide) (by decide) (by decide)

end VueCore
